import Mathlib

/-!
# Snake on an 8x8 LED matrix: the game state machine of `Snake.cpp`

The sketch keeps its whole game state in globals.  The embedding below passes
them around as one record and translates `move`, `checkFood`, `lose`, `win`,
the four `moveUp` / `moveDown` / `moveLeft` / `moveRight` routines and the
body of `loop` statement by statement.

Modelling conventions

* `board` is `uint8_t board[41][8]`, a contiguous block of 328 bytes.  It is
  modelled as a map from the byte offset relative to `&board[0][0]` to the
  byte stored there, so the expression `board[seg][x]` is the byte at offset
  `8 * seg + x`.  Offsets outside `0 .. 327` stand for the memory next to the
  array; `moveLeft` and `moveRight` read one such byte (`board[seg][8]` and
  `board[seg][-1]`) and overwrite the copy right away.
* `food` is `uint8_t food[8]`; every index the program uses is a loop counter
  in `0 .. 7` or a value `rand() % 8`.
* Bytes are natural numbers; the only operation that can leave the byte range
  is `<<= 1`, which is reduced modulo 256.
* `segCount` and `lastMove` are `int`s that the program initialises to `3`
  and `0` and afterwards only increments, or sets to one of `3`, `0`, `1`,
  `2`, `3`; they are natural numbers here.
* `rand()` pops the next value of the stream `rng`; `srand` reseeds the
  generator with a time-dependent seed, which the model leaves to the choice
  of the stream.
* The display is write-only.  The model records, in order, the calls that
  produce output outside the regular frame scan: the number printed by
  `Serial.println(rand())`, the losing `X` shown by `lose()` and the smile
  shown by `win()`.
-/

namespace Snake

/-- Win threshold `#define kWinCount 40`. -/
def kWinCount : Nat := 40

/-- Outputs besides the frame scan, in the order they are produced. -/
inductive Event where
  | serial (n : Nat)
  | loseShown
  | winShown
  deriving DecidableEq, Repr

/-- The globals of the sketch that the game logic reads or writes. -/
structure State where
  /-- Bytes of `board`, by offset from `&board[0][0]`. -/
  board : Int → Nat
  /-- Column bytes of `food`. -/
  food : Nat → Nat
  segCount : Nat
  lastMove : Nat
  xVal : Int
  yVal : Int
  /-- Values that the coming calls of `rand()` return. -/
  rng : Nat → Nat
  /-- Serial and win/lose display output so far. -/
  out : List Event

/-- The byte `board[seg][x]`. -/
def boardAt (s : State) (seg : Nat) (x : Int) : Nat :=
  s.board (8 * (seg : Int) + x)

/-- The assignment `board[seg][x] = v`. -/
def setBoard (s : State) (seg : Nat) (x : Int) (v : Nat) : State :=
  { s with board := fun j => if j = 8 * (seg : Int) + x then v else s.board j }

/-- Loop counter values `0, 1, ..., 7` of `for (x = 0; x <= 7; x++)`. -/
def cols : List Nat := [0, 1, 2, 3, 4, 5, 6, 7]

/-- Loop counter values `7, 6, ..., 0` of `for (x = 7; x >= 0; x--)`. -/
def colsDown : List Nat := [7, 6, 5, 4, 3, 2, 1, 0]

/-- `moveUp(seg)`: shift every column byte of the segment left by one bit,
with `128` wrapping to `1`. -/
def moveUp (seg : Nat) (s : State) : State :=
  cols.foldl
    (fun (t : State) (x : Nat) =>
      if boardAt t seg x = 128 then setBoard t seg x 1
      else setBoard t seg x (boardAt t seg x * 2 % 256))
    { s with lastMove := 0 }

/-- `moveDown(seg)`: shift every column byte right by one bit, with `1`
wrapping to `128`. -/
def moveDown (seg : Nat) (s : State) : State :=
  cols.foldl
    (fun (t : State) (x : Nat) =>
      if boardAt t seg x = 1 then setBoard t seg x 128
      else setBoard t seg x (boardAt t seg x / 2))
    { s with lastMove := 1 }

/-- `moveLeft(seg)`: column `x` takes the byte of column `x + 1`, for
`x = 0 .. 7` in this order, then column 7 takes the saved byte of column 0. -/
def moveLeft (seg : Nat) (s : State) : State :=
  let s0 := { s with lastMove := 2 }
  let temp := boardAt s0 seg 0
  let s1 := cols.foldl (fun (t : State) (x : Nat) => setBoard t seg x (boardAt t seg ((x : Int) + 1))) s0
  setBoard s1 seg 7 temp

/-- `moveRight(seg)`: column `x` takes the byte of column `x - 1`, for
`x = 7 .. 0` in this order, then column 0 takes the saved byte of column 7. -/
def moveRight (seg : Nat) (s : State) : State :=
  let s0 := { s with lastMove := 3 }
  let temp := boardAt s0 seg 7
  let s1 := colsDown.foldl
    (fun (t : State) (x : Nat) => setBoard t seg x (boardAt t seg ((x : Int) - 1))) s0
  setBoard s1 seg 0 temp

/-- The table `posArray` of `checkFood`. -/
def posArray : List Nat := [1, 2, 4, 8, 16, 32, 64, 128]

/-- One call of `rand()`: the value returned and the state afterwards. -/
def rand (s : State) : Nat × State :=
  (s.rng 0, { s with rng := fun n => s.rng (n + 1) })

/-- The call `memset(food, 0x00, 8)`. -/
def clearFood (s : State) : State :=
  { s with food := fun _ => 0 }

/-- The statement `food[rand() % 8] = posArray[rand() % 8]`.  The right
operand of the assignment is evaluated first: the first value drawn selects
the byte of `posArray` (the row) and the second one the column of `food`. -/
def placeFood (s : State) : State :=
  let (b, s1) := rand s
  let (a, s2) := rand s1
  { s2 with food := fun x => if x = a % 8 then posArray.getD (b % 8) 0 else s2.food x }

/-- The nested re-roll loops of `checkFood`: for every column `x` and every
segment `seg < segCount`, if `board[seg][x] == food[x]` the food is cleared
and placed again. -/
def reroll (s : State) : State :=
  cols.foldl
    (fun (t : State) (x : Nat) =>
      (List.range t.segCount).foldl
        (fun (u : State) (seg : Nat) =>
          if boardAt u seg x = u.food x then placeFood (clearFood u) else u)
        t)
    s

/-- The statement `Serial.println(rand())`. -/
def announce (s : State) : State :=
  let (r, s1) := rand s
  { s1 with out := s1.out ++ [Event.serial r] }

/-- The body of the food branch of `checkFood`: clear the food, reseed,
print a random number, place the food, run the re-roll loops, `segCount++`. -/
def eat (s : State) : State :=
  let s1 := reroll (placeFood (announce (clearFood s)))
  { s1 with segCount := s1.segCount + 1 }

/-- `lose()`: show the `X`, then `segCount = 3`. -/
def lose (s : State) : State :=
  { s with out := s.out ++ [Event.loseShown], segCount := 3 }

/-- `win()`: show the smile, then `segCount = 3`. -/
def win (s : State) : State :=
  { s with out := s.out ++ [Event.winShown], segCount := 3 }

/-- The condition of the food branch for column `x`. -/
def foodHit (s : State) (x : Nat) : Prop :=
  boardAt s 0 x = s.food x ∧ boardAt s 0 x ≠ 0

instance (s : State) (x : Nat) : Decidable (foodHit s x) := by
  unfold foodHit; infer_instance

/-- The condition under which the self-collision loop calls `lose()` for
segment `seg` in column `x`. -/
def bodyHit (s : State) (x seg : Nat) : Prop :=
  boardAt s 0 x = boardAt s seg x ∧ boardAt s 0 x ≠ 0

instance (s : State) (x seg : Nat) : Decidable (bodyHit s x seg) := by
  unfold bodyHit; infer_instance

/-- The loop `for (seg = ...; seg < segCount; seg++) if (...) lose();` of
`checkFood`, from the counter value `seg` on.  The bound `segCount` is read
again before every pass, because `lose()` changes it.  The first argument
bounds the number of passes. -/
def loseLoop (x : Nat) : Nat → Nat → State → State
  | 0, _, s => s
  | fuel + 1, seg, s =>
    if seg < s.segCount then
      loseLoop x fuel (seg + 1) (if bodyHit s x seg then lose s else s)
    else s

/-- First statement of the body of the outer loop of `checkFood`: the food
branch for column `x`. -/
def foodCheck (x : Nat) (s : State) : State :=
  if foodHit s x then eat s else s

/-- Second statement: the self-collision loop for column `x`, which starts at
`seg = 1`.  The counter stays below `max segCount 3`, because `lose()` is the
only thing that changes the bound and sets it to 3, so `max segCount 3`
passes are enough (`loseLoop_fuel`). -/
def selfCheck (x : Nat) (s : State) : State :=
  loseLoop x (max s.segCount 3) 1 s

/-- Third statement: the win check. -/
def winCheck (s : State) : State :=
  if s.segCount ≥ kWinCount then win s else s

/-- One pass of the outer loop of `checkFood`, for column `x`. -/
def checkCol (x : Nat) (s : State) : State :=
  winCheck (selfCheck x (foodCheck x s))

/-- `checkFood()`. -/
def checkFood (s : State) : State :=
  cols.foldl (fun (t : State) (x : Nat) => checkCol x t) s

/-- The inner loop `for (i = 0; i < 8; i++) board[seg][i] = board[seg-1][i]`
of `move`. -/
def copySeg (seg : Nat) (s : State) : State :=
  cols.foldl (fun (t : State) (i : Nat) => setBoard t seg i (boardAt t (seg - 1) i)) s

/-- The `seg == 0` branch of `move` up to the call of `checkFood`: the head
is moved in the direction selected by the readings and `lastMove`. -/
def steer (s : State) : State :=
  if s.yVal > 600 ∧ s.lastMove ≠ 1 then moveUp 0 s
  else if s.yVal < 400 ∧ s.lastMove ≠ 0 then moveDown 0 s
  else if s.xVal < 400 ∧ s.lastMove ≠ 3 then moveLeft 0 s
  else if s.xVal > 600 ∧ s.lastMove ≠ 2 then moveRight 0 s
  else
    match s.lastMove with
    | 0 => moveUp 0 s
    | 1 => moveDown 0 s
    | 2 => moveLeft 0 s
    | 3 => moveRight 0 s
    | _ => s

/-- The loop `for (seg = ...; seg >= 0; seg--)` of `move`, from the counter
value `seg` on. -/
def moveLoop : Nat → State → State
  | 0, s => checkFood (steer s)
  | seg + 1, s => moveLoop seg (copySeg (seg + 1) s)

/-- `move()`: the loop starts at `seg = segCount`. -/
def move (s : State) : State :=
  moveLoop s.segCount s

/-- The initialised globals: three segments in columns 2, 3, 4 with row byte
`0x08`, the rest of `board` zero, food in column 6.  `mem` gives the bytes
around `board` and `rng` the random stream; `xVal` and `yVal` are zero until
the loop reads the joystick. -/
def initState (mem : Int → Nat) (rng : Nat → Nat) : State where
  board := fun j =>
    if j = 2 ∨ j = 11 ∨ j = 20 then 8
    else if 0 ≤ j ∧ j < 328 then 0
    else mem j
  food := fun x => if x = 6 then 8 else 0
  segCount := 3
  lastMove := 0
  xVal := 0
  yVal := 0
  rng := rng
  out := []

/-- One tick: the loop has stored the readings `x`, `y` in `xVal`, `yVal`,
the generator will return the values of `rng`, and `move()` runs. -/
def tick (x y : Int) (rng : Nat → Nat) (s : State) : State :=
  move { s with xVal := x, yVal := y, rng := rng }

/-- States at tick boundaries that the game can be in. -/
inductive Reachable : State → Prop where
  | init (mem : Int → Nat) (rng : Nat → Nat) : Reachable (initState mem rng)
  | step (s : State) (x y : Int) (rng : Nat → Nat) :
      Reachable s → Reachable (tick x y rng s)

/-! ## Vocabulary of the properties -/

/-- Column bytes of segment `i`, as a grid. -/
def segGrid (s : State) (i : Nat) : Nat → Nat :=
  fun x => boardAt s i x

/-- The grid `g` has its single lit cell in column `c`, row `r`: column `c`
holds the byte `2 ^ r` and the other seven columns hold 0. -/
def LitAt (g : Nat → Nat) (c r : Nat) : Prop :=
  c < 8 ∧ r < 8 ∧ ∀ x, x < 8 → g x = if x = c then 2 ^ r else 0

instance (g : Nat → Nat) (c r : Nat) : Decidable (LitAt g c r) := by
  unfold LitAt; infer_instance

/-- Exactly one bit is set over the whole 8x8 grid. -/
def OneBit (g : Nat → Nat) : Prop :=
  ∃ c, c < 8 ∧ ∃ r, r < 8 ∧ LitAt g c r

instance (g : Nat → Nat) : Decidable (OneBit g) := by
  unfold OneBit; infer_instance

/-- Two grids agree on all eight columns. -/
def SameGrid (g h : Nat → Nat) : Prop :=
  ∀ x, x < 8 → g x = h x

instance (g h : Nat → Nat) : Decidable (SameGrid g h) := by
  unfold SameGrid; infer_instance

/-- Output produced between state `s` and the later state `t`. -/
def emitted (s t : State) : List Event :=
  t.out.drop s.out.length

/-- Recognises the serial line printed by the food branch. -/
def isSerial : Event → Bool
  | Event.serial _ => true
  | _ => false

/-- The copies done by `move` for `seg = n, n - 1, ..., 1`. -/
def shiftBody : Nat → State → State
  | 0, s => s
  | n + 1, s => shiftBody n (copySeg (n + 1) s)

/-- The state in which `move` calls `checkFood`: body shifted, head moved. -/
def moved (s : State) : State :=
  steer (shiftBody s.segCount s)

/-- Direction named by the specification for the readings `xVal`, `yVal` and
the latched direction: Up if `yVal > 600` and not moving Down, otherwise Down
if `yVal < 400` and not moving Up, otherwise Left if `xVal < 400` and not
moving Right, otherwise Right if `xVal > 600` and not moving Left, otherwise
the latched direction again. -/
def intendedDir (lastMove : Nat) (xVal yVal : Int) : Nat :=
  if yVal > 600 ∧ lastMove ≠ 1 then 0
  else if yVal < 400 ∧ lastMove ≠ 0 then 1
  else if xVal < 400 ∧ lastMove ≠ 3 then 2
  else if xVal > 600 ∧ lastMove ≠ 2 then 3
  else lastMove

/-- Advance segment `seg` in direction `d` (0 Up, 1 Down, 2 Left, 3 Right). -/
def advance (d : Nat) (seg : Nat) (s : State) : State :=
  match d with
  | 0 => moveUp seg s
  | 1 => moveDown seg s
  | 2 => moveLeft seg s
  | 3 => moveRight seg s
  | _ => s

/-- Directions `a` and `b` are opposite: Up/Down or Left/Right. -/
def Opposite (a b : Nat) : Prop :=
  (a = 0 ∧ b = 1) ∨ (a = 1 ∧ b = 0) ∨ (a = 2 ∧ b = 3) ∨ (a = 3 ∧ b = 2)

instance (a b : Nat) : Decidable (Opposite a b) := by
  unfold Opposite; infer_instance

/-- Everything but `food` and `rng` is the same in `s` and `t`. -/
def Kept (s t : State) : Prop :=
  t.board = s.board ∧ t.segCount = s.segCount ∧ t.lastMove = s.lastMove ∧
  t.xVal = s.xVal ∧ t.yVal = s.yVal ∧ t.out = s.out

/-! ## Concrete states used as test inputs -/

/-- A three-segment snake whose head sits in the corner: column 7, row 7
(byte 128), with the body to its left and the food at column 0, row 0. -/
def cornerState : State where
  board := fun j => if j = 7 ∨ j = 14 ∨ j = 21 then 128 else 0
  food := fun x => if x = 0 then 1 else 0
  segCount := 3
  lastMove := 3
  xVal := 500
  yVal := 500
  rng := fun _ => 0
  out := []

/-- A three-segment snake moving Left whose head has just reached the food
in column 6, row 3 (byte 8); the generator returns 3 on every call. -/
def feastState : State where
  board := fun j => if j = 6 ∨ j = 15 ∨ j = 16 then 8 else 0
  food := fun x => if x = 6 then 8 else 0
  segCount := 3
  lastMove := 2
  xVal := 500
  yVal := 500
  rng := fun _ => 3
  out := []

/-- Cells `(column, row)` of a 39-segment snake, head first: the head at
`(2, 1)` has just moved Left, and the body winds through rows 1 to 7. -/
def biteCells : List (Nat × Nat) :=
  [(2, 1), (3, 1), (3, 2), (2, 2), (1, 2), (0, 2),
   (0, 3), (1, 3), (2, 3), (3, 3), (4, 3), (5, 3), (6, 3), (7, 3),
   (7, 4), (6, 4), (5, 4), (4, 4), (3, 4), (2, 4), (1, 4), (0, 4),
   (0, 5), (1, 5), (2, 5), (3, 5), (4, 5), (5, 5), (6, 5), (7, 5),
   (7, 6), (6, 6), (5, 6), (4, 6), (3, 6), (2, 6), (1, 6), (0, 6),
   (0, 7)]

/-- The snake of `biteCells` with `segCount = 39`, the stick pushed Up
(`yVal = 1000`), and the food in the cell `(2, 2)` right above the head, a
cell that segment 3 occupies. -/
def biteState : State where
  board := fun j =>
    if 0 ≤ j ∧ j < 312 ∧ j % 8 = ((biteCells.getD (j / 8).toNat (0, 0)).1 : Int) then
      2 ^ (biteCells.getD (j / 8).toNat (0, 0)).2
    else 0
  food := fun x => if x = 2 then 4 else 0
  segCount := 39
  lastMove := 2
  xVal := 500
  yVal := 1000
  rng := fun _ => 0
  out := []

/-- The state in which `move` calls `checkFood` on the first tick when the
stick is pushed Right: the head has moved to column 3, the cell that segment
2 took over from segment 1; food in column 6. -/
def coilState : State where
  board := fun j => if j = 3 ∨ j = 10 ∨ j = 19 ∨ j = 28 then 8 else 0
  food := fun x => if x = 6 then 8 else 0
  segCount := 3
  lastMove := 3
  xVal := 1000
  yVal := 500
  rng := fun _ => 0
  out := []

/-- The game played from the initial state with the stick held Left
(`xVal = 0`, `yVal = 500`) for `n` ticks, the generator returning 3 on every
call. -/
def leftRun : Nat → State
  | 0 => initState (fun _ => 0) (fun _ => 3)
  | n + 1 => tick 0 500 (fun _ => 3) (leftRun n)

/-- The invariant of the game at tick boundaries: `segCount` lies between 3
and the win threshold (exclusive), and every active segment is one-bit. -/
def Inv (s : State) : Prop :=
  3 ≤ s.segCount ∧ s.segCount < kWinCount ∧ ∀ i, i < s.segCount → OneBit (segGrid s i)

/-! ## The game loop -/

/-- The first statements of the loop body: read the two axes, then keep the
one that is further from 500 and set the other one to 500. -/
def readInput (x y : Int) (s : State) : State :=
  let s1 := { s with xVal := x, yVal := y }
  if (s1.xVal - 500).natAbs > (s1.yVal - 500).natAbs then { s1 with yVal := 500 }
  else { s1 with xVal := 500 }

/-- The variables of `loop()` next to the game globals: the counter
`moveCount`, the frame buffer `boardDisplay`, and the frames scanned out to
the matrix so far (eight row bytes each, column 0 first). -/
structure Loop where
  game : State
  moveCount : Nat
  boardDisplay : Nat → Nat
  shown : List (List Nat)

/-- The loops `for (seg < segCount) for (x < 8) boardDisplay[x] |= board[seg][x]`. -/
def compose (s : State) (d : Nat → Nat) : Nat → Nat :=
  (List.range s.segCount).foldl
    (fun (d1 : Nat → Nat) (seg : Nat) =>
      cols.foldl
        (fun (d2 : Nat → Nat) (x : Nat) =>
          fun k => if k = x then d2 x ||| boardAt s seg x else d2 k)
        d1)
    d

/-- One pass of the `for (;;)` loop with the raw readings `x`, `y`: read and
normalise the input; if `moveCount > 50` call `move()` (the generator then
returns the values of `rng`) and reset the counter; compose and scan out the
snake frame; clear `boardDisplay`; scan out the food; `moveCount++`. -/
def loopPass (x y : Int) (rng : Nat → Nat) (l : Loop) : Loop :=
  let g1 := readInput x y l.game
  let g2 := if l.moveCount > 50 then move { g1 with rng := rng } else g1
  let mc := if l.moveCount > 50 then 0 else l.moveCount
  let d := compose g2 l.boardDisplay
  { game := g2
    moveCount := mc + 1
    boardDisplay := fun _ => 0
    shown := l.shown ++ [cols.map d, cols.map g2.food] }

/-- The loop variables when `loop()` is entered. -/
def loopInit (mem : Int → Nat) (rng : Nat → Nat) : Loop where
  game := initState mem rng
  moveCount := 0
  boardDisplay := fun _ => 0
  shown := []

/-- Loop states at the start of a pass. -/
inductive LoopReachable : Loop → Prop where
  | init (mem : Int → Nat) (rng : Nat → Nat) : LoopReachable (loopInit mem rng)
  | pass (l : Loop) (x y : Int) (rng : Nat → Nat) :
      LoopReachable l → LoopReachable (loopPass x y rng l)

/-- The loop state after `n` passes, pass `k` getting the readings and the
random stream `inp k`. -/
def passes (inp : Nat → Int × Int × (Nat → Nat)) : Nat → Loop → Loop
  | 0, l => l
  | n + 1, l => loopPass (inp n).1 (inp n).2.1 (inp n).2.2 (passes inp n l)

/-- Bitwise OR of column `x` over all segments below `segCount`. -/
def orAll (s : State) (x : Nat) : Nat :=
  (List.range s.segCount).foldl (fun (a : Nat) (seg : Nat) => a ||| boardAt s seg x) 0

/-! ## The four moves with checked column indices -/

/-- The read `board[seg][x]` with an index check: no value for a column index
outside `0 .. 7`. -/
def boardAtChecked (s : State) (seg : Nat) (x : Int) : Option Nat :=
  if 0 ≤ x ∧ x < 8 then some (boardAt s seg x) else none

/-- The write `board[seg][x] = v` with an index check. -/
def setBoardChecked (s : State) (seg : Nat) (x : Int) (v : Nat) : Option State :=
  if 0 ≤ x ∧ x < 8 then some (setBoard s seg x v) else none

/-- `moveUp(seg)` with every column access checked. -/
def moveUpChecked (seg : Nat) (s : State) : Option State :=
  cols.foldlM
    (fun (t : State) (x : Nat) => do
      let v ← boardAtChecked t seg x
      if v = 128 then setBoardChecked t seg x 1
      else setBoardChecked t seg x (v * 2 % 256))
    { s with lastMove := 0 }

/-- `moveDown(seg)` with every column access checked. -/
def moveDownChecked (seg : Nat) (s : State) : Option State :=
  cols.foldlM
    (fun (t : State) (x : Nat) => do
      let v ← boardAtChecked t seg x
      if v = 1 then setBoardChecked t seg x 128
      else setBoardChecked t seg x (v / 2))
    { s with lastMove := 1 }

/-- `moveLeft(seg)` with every column access checked. -/
def moveLeftChecked (seg : Nat) (s : State) : Option State := do
  let s0 : State := { s with lastMove := 2 }
  let temp ← boardAtChecked s0 seg 0
  let s1 ← cols.foldlM
    (fun (t : State) (x : Nat) => do
      let v ← boardAtChecked t seg ((x : Int) + 1)
      setBoardChecked t seg x v)
    s0
  setBoardChecked s1 seg 7 temp

/-- `moveRight(seg)` with every column access checked. -/
def moveRightChecked (seg : Nat) (s : State) : Option State := do
  let s0 : State := { s with lastMove := 3 }
  let temp ← boardAtChecked s0 seg 7
  let s1 ← colsDown.foldlM
    (fun (t : State) (x : Nat) => do
      let v ← boardAtChecked t seg ((x : Int) - 1)
      setBoardChecked t seg x v)
    s0
  setBoardChecked s1 seg 0 temp

/-! ## The tick with checked row indices

The routines of the tick once more, with every access `board[seg][x]` checked
against a number `rows` of rows: an access with `seg ≥ rows` gives no result.
The array of the sketch has 41 rows. -/

/-- The read `board[seg][x]` with a check of the row index. -/
def boardAtRow (rows : Nat) (s : State) (seg : Nat) (x : Int) : Option Nat :=
  if seg < rows then some (boardAt s seg x) else none

/-- The write `board[seg][x] = v` with a check of the row index. -/
def setBoardRow (rows : Nat) (s : State) (seg : Nat) (x : Int) (v : Nat) : Option State :=
  if seg < rows then some (setBoard s seg x v) else none

/-- `moveUp(seg)` with every row index checked. -/
def moveUpRow (rows : Nat) (seg : Nat) (s : State) : Option State :=
  cols.foldlM
    (fun (t : State) (x : Nat) => do
      let v ← boardAtRow rows t seg x
      if v = 128 then setBoardRow rows t seg x 1
      else setBoardRow rows t seg x (v * 2 % 256))
    { s with lastMove := 0 }

/-- `moveDown(seg)` with every row index checked. -/
def moveDownRow (rows : Nat) (seg : Nat) (s : State) : Option State :=
  cols.foldlM
    (fun (t : State) (x : Nat) => do
      let v ← boardAtRow rows t seg x
      if v = 1 then setBoardRow rows t seg x 128
      else setBoardRow rows t seg x (v / 2))
    { s with lastMove := 1 }

/-- `moveLeft(seg)` with every row index checked. -/
def moveLeftRow (rows : Nat) (seg : Nat) (s : State) : Option State := do
  let s0 : State := { s with lastMove := 2 }
  let temp ← boardAtRow rows s0 seg 0
  let s1 ← cols.foldlM
    (fun (t : State) (x : Nat) => do
      let v ← boardAtRow rows t seg ((x : Int) + 1)
      setBoardRow rows t seg x v)
    s0
  setBoardRow rows s1 seg 7 temp

/-- `moveRight(seg)` with every row index checked. -/
def moveRightRow (rows : Nat) (seg : Nat) (s : State) : Option State := do
  let s0 : State := { s with lastMove := 3 }
  let temp ← boardAtRow rows s0 seg 7
  let s1 ← colsDown.foldlM
    (fun (t : State) (x : Nat) => do
      let v ← boardAtRow rows t seg ((x : Int) - 1)
      setBoardRow rows t seg x v)
    s0
  setBoardRow rows s1 seg 0 temp

/-- The re-roll loops of `checkFood` with the row of `board[seg][x]` checked. -/
def rerollRow (rows : Nat) (s : State) : Option State :=
  cols.foldlM
    (fun (t : State) (x : Nat) =>
      (List.range t.segCount).foldlM
        (fun (u : State) (seg : Nat) => do
          let v ← boardAtRow rows u seg x
          if v = u.food x then some (placeFood (clearFood u)) else some u)
        t)
    s

/-- The body of the food branch with checked rows. -/
def eatRow (rows : Nat) (s : State) : Option State := do
  let s1 ← rerollRow rows (placeFood (announce (clearFood s)))
  some { s1 with segCount := s1.segCount + 1 }

/-- The food branch for column `x` with the row of `board[0][x]` checked. -/
def foodCheckRow (rows : Nat) (x : Nat) (s : State) : Option State := do
  let h ← boardAtRow rows s 0 x
  if h = s.food x ∧ h ≠ 0 then eatRow rows s else some s

/-- The self-collision loop with the rows of `board[0][x]` and
`board[seg][x]` checked. -/
def loseLoopRow (rows : Nat) (x : Nat) : Nat → Nat → State → Option State
  | 0, _, s => some s
  | fuel + 1, seg, s =>
    if seg < s.segCount then do
      let h ← boardAtRow rows s 0 x
      let v ← boardAtRow rows s seg x
      loseLoopRow rows x fuel (seg + 1) (if h = v ∧ h ≠ 0 then lose s else s)
    else some s

/-- One pass of the outer loop of `checkFood` with checked rows. -/
def checkColRow (rows : Nat) (x : Nat) (s : State) : Option State := do
  let s1 ← foodCheckRow rows x s
  let s2 ← loseLoopRow rows x (max s1.segCount 3) 1 s1
  some (winCheck s2)

/-- `checkFood()` with checked rows. -/
def checkFoodRow (rows : Nat) (s : State) : Option State :=
  cols.foldlM (fun (t : State) (x : Nat) => checkColRow rows x t) s

/-- The row copy of `move` with the rows `seg` and `seg - 1` checked. -/
def copySegRow (rows : Nat) (seg : Nat) (s : State) : Option State :=
  cols.foldlM
    (fun (t : State) (i : Nat) => do
      let v ← boardAtRow rows t (seg - 1) i
      setBoardRow rows t seg i v)
    s

/-- The `seg == 0` branch of `move` up to the call of `checkFood`, with
checked rows. -/
def steerRow (rows : Nat) (s : State) : Option State :=
  if s.yVal > 600 ∧ s.lastMove ≠ 1 then moveUpRow rows 0 s
  else if s.yVal < 400 ∧ s.lastMove ≠ 0 then moveDownRow rows 0 s
  else if s.xVal < 400 ∧ s.lastMove ≠ 3 then moveLeftRow rows 0 s
  else if s.xVal > 600 ∧ s.lastMove ≠ 2 then moveRightRow rows 0 s
  else
    match s.lastMove with
    | 0 => moveUpRow rows 0 s
    | 1 => moveDownRow rows 0 s
    | 2 => moveLeftRow rows 0 s
    | 3 => moveRightRow rows 0 s
    | _ => some s

/-- The loop of `move` from the counter value `seg` on, with checked rows. -/
def moveLoopRow (rows : Nat) : Nat → State → Option State
  | 0, s => do
    let t ← steerRow rows s
    checkFoodRow rows t
  | seg + 1, s => do
    let t ← copySegRow rows (seg + 1) s
    moveLoopRow rows seg t

/-- `move()` with checked rows. -/
def moveRow (rows : Nat) (s : State) : Option State :=
  moveLoopRow rows s.segCount s

/-- A state with `segCount = 41`, one more than the win check ever leaves. -/
def overlongState : State :=
  { cornerState with segCount := 41 }

/-- With `r` the random stream at the start of the food branch, the food of
`t` is lit exactly at the cell of the draws `2k + 1` (byte) and `2k + 2`
(column) for some number `k` of re-rolls, draw 0 being the printed one, and
the stream of `t` is `r` advanced past these `2k + 3` draws. -/
def Drawn (r : Nat → Nat) (t : State) : Prop :=
  ∃ k, LitAt t.food (r (2 * k + 2) % 8) (r (2 * k + 1) % 8) ∧
    ∀ n, t.rng n = r (n + (2 * k + 3))

/-! ## More vocabulary and test inputs -/

/-- The one-cell grids `g` and `h` are neighbours on the 8x8 torus: same
column and rows one apart modulo 8, or same row and columns one apart
modulo 8. -/
def Adjacent (g h : Nat → Nat) : Prop :=
  ∃ c, c < 8 ∧ ∃ r, r < 8 ∧ LitAt g c r ∧
    (LitAt h c ((r + 1) % 8) ∨ LitAt h c ((r + 7) % 8) ∨
      LitAt h ((c + 1) % 8) r ∨ LitAt h ((c + 7) % 8) r)

instance (g h : Nat → Nat) : Decidable (Adjacent g h) := by
  unfold Adjacent; infer_instance

/-- The invariant `Inv` together with a latched direction in `0 .. 3` and
neighbouring cells for every two consecutive active segments. -/
def Chain (s : State) : Prop :=
  Inv s ∧ s.lastMove ≤ 3 ∧
  ∀ i, i + 1 < s.segCount → Adjacent (segGrid s i) (segGrid s (i + 1))

/-- The game played Left for three ticks, with the readings and the generator
of the fourth tick stored: the state in which the fourth `move()` starts. -/
def fourthTick : State :=
  { leftRun 3 with xVal := 0, yVal := 500, rng := fun _ => 3 }

/-- The state `feastState` with a generator that returns 1 on its first three
calls and 5 afterwards: the first candidate for the new food is column 1,
byte 2. -/
def rerollState : State :=
  { feastState with rng := fun n => if n < 3 then 1 else 5 }

/-! ## Closed forms of the loops over the columns -/

section sweeps

theorem foldl_range_succ {β : Type} (f : β → Nat → β) (b : β) (k : Nat) :
    (List.range (k + 1)).foldl f b = f ((List.range k).foldl f b) k := by
  rw [List.range_succ, List.foldl_append]; rfl

/-- An ascending loop that stores into offset `base + x` a function of the
byte at offset `base + x + d`, where the bytes read are never ones already
written. -/
theorem sweep_up (s : State) (base d : Int) (h : Nat → Nat) (hd : 0 ≤ d ∨ d ≤ -8)
    (k : Nat) (hk : k ≤ 8) :
    (List.range k).foldl
      (fun (t : State) (x : Nat) =>
        { t with board := fun j =>
            if j = base + (x : Int) then h (t.board (base + (x : Int) + d)) else t.board j })
      s
    = { s with board := fun j =>
          if base ≤ j ∧ j < base + (k : Int) then h (s.board (j + d)) else s.board j } := by
  induction k with
  | zero =>
    simp only [List.range_zero, List.foldl_nil]
    cases s; simp only [State.mk.injEq, and_true, true_and]
    funext j; rw [if_neg]; omega
  | succ k ih =>
    rw [foldl_range_succ, ih (by omega)]
    simp only [State.mk.injEq, and_true, true_and]
    funext j
    by_cases hj : j = base + (k : Int)
    · subst hj
      rw [if_pos rfl, if_neg (by omega), if_pos (by omega)]
    · rw [if_neg hj]
      by_cases h1 : base ≤ j ∧ j < base + (k : Int)
      · rw [if_pos h1, if_pos (by omega)]
      · rw [if_neg h1, if_neg (by omega)]

/-- The descending loop of `moveRight`: offset `base + 7 - i` takes the byte
below it, for `i = 0, 1, ...`. -/
theorem sweep_down (s : State) (base : Int) (k : Nat) (hk : k ≤ 8) :
    (List.range k).foldl
      (fun (t : State) (i : Nat) =>
        { t with board := fun j =>
            if j = base + 7 - (i : Int) then t.board (base + 7 - (i : Int) - 1) else t.board j })
      s
    = { s with board := fun j =>
          if base + 8 - (k : Int) ≤ j ∧ j < base + 8 then s.board (j - 1) else s.board j } := by
  induction k with
  | zero =>
    simp only [List.range_zero, List.foldl_nil]
    cases s; simp only [State.mk.injEq, and_true, true_and]
    funext j; rw [if_neg]; omega
  | succ k ih =>
    rw [foldl_range_succ, ih (by omega)]
    simp only [State.mk.injEq, and_true, true_and]
    funext j
    by_cases hj : j = base + 7 - (k : Int)
    · subst hj
      rw [if_pos rfl, if_neg (by omega), if_pos (by push_cast; omega)]
    · rw [if_neg hj]
      by_cases h1 : base + 8 - (k : Int) ≤ j ∧ j < base + 8
      · rw [if_pos h1, if_pos (by push_cast; omega)]
      · rw [if_neg h1, if_neg (by push_cast; omega)]

theorem cols_eq_range : cols = List.range 8 := by decide

theorem colsDown_eq : colsDown = (List.range 8).map (fun i => 7 - i) := by decide

/-- Closed form of `moveUp`. -/
theorem moveUp_eq (seg : Nat) (s : State) :
    moveUp seg s =
      { s with
        lastMove := 0
        board := fun j =>
          if 8 * (seg : Int) ≤ j ∧ j < 8 * (seg : Int) + 8 then
            (if s.board j = 128 then 1 else s.board j * 2 % 256)
          else s.board j } := by
  have h := sweep_up { s with lastMove := 0 } (8 * (seg : Int)) 0
    (fun v => if v = 128 then 1 else v * 2 % 256) (Or.inl le_rfl) 8 le_rfl
  simp only [add_zero, Nat.cast_ofNat] at h
  rw [moveUp, cols_eq_range]
  refine Eq.trans (List.foldl_ext _ _ _ ?_) h
  intro t x _
  simp only [boardAt, setBoard]
  split <;> simp_all

/-- Closed form of `moveDown`. -/
theorem moveDown_eq (seg : Nat) (s : State) :
    moveDown seg s =
      { s with
        lastMove := 1
        board := fun j =>
          if 8 * (seg : Int) ≤ j ∧ j < 8 * (seg : Int) + 8 then
            (if s.board j = 1 then 128 else s.board j / 2)
          else s.board j } := by
  have h := sweep_up { s with lastMove := 1 } (8 * (seg : Int)) 0
    (fun v => if v = 1 then 128 else v / 2) (Or.inl le_rfl) 8 le_rfl
  simp only [add_zero, Nat.cast_ofNat] at h
  rw [moveDown, cols_eq_range]
  refine Eq.trans (List.foldl_ext _ _ _ ?_) h
  intro t x _
  simp only [boardAt, setBoard]
  split <;> simp_all

/-- Closed form of `moveLeft`. -/
theorem moveLeft_eq (seg : Nat) (s : State) :
    moveLeft seg s =
      { s with
        lastMove := 2
        board := fun j =>
          if 8 * (seg : Int) ≤ j ∧ j < 8 * (seg : Int) + 7 then s.board (j + 1)
          else if j = 8 * (seg : Int) + 7 then s.board (8 * (seg : Int))
          else s.board j } := by
  have h := sweep_up { s with lastMove := 2 } (8 * (seg : Int)) 1 id (Or.inl (by decide)) 8 le_rfl
  simp only [Nat.cast_ofNat] at h
  have e : cols.foldl
      (fun (t : State) (x : Nat) => setBoard t seg x (boardAt t seg ((x : Int) + 1)))
      { s with lastMove := 2 } =
      { s with
        lastMove := 2
        board := fun j =>
          if 8 * (seg : Int) ≤ j ∧ j < 8 * (seg : Int) + 8 then s.board (j + 1)
          else s.board j } := by
    rw [cols_eq_range]
    refine Eq.trans (List.foldl_ext _ _ _ ?_) h
    intro t x _
    simp only [boardAt, setBoard, State.mk.injEq, and_true, true_and]
    funext j
    refine if_congr Iff.rfl ?_ rfl
    show t.board _ = t.board _
    congr 1
  simp only [moveLeft]
  rw [e]
  simp only [setBoard, boardAt, State.mk.injEq, and_true, true_and, add_zero]
  funext j
  by_cases h7 : j = 8 * (seg : Int) + 7
  · subst h7; rw [if_pos rfl, if_neg (by omega), if_pos rfl]
  · rw [if_neg h7, if_neg h7]
    by_cases h1 : 8 * (seg : Int) ≤ j ∧ j < 8 * (seg : Int) + 8
    · rw [if_pos h1, if_pos (by omega)]
    · rw [if_neg h1, if_neg (by omega)]

/-- Closed form of `moveRight`. -/
theorem moveRight_eq (seg : Nat) (s : State) :
    moveRight seg s =
      { s with
        lastMove := 3
        board := fun j =>
          if 8 * (seg : Int) < j ∧ j < 8 * (seg : Int) + 8 then s.board (j - 1)
          else if j = 8 * (seg : Int) then s.board (8 * (seg : Int) + 7)
          else s.board j } := by
  have h := sweep_down { s with lastMove := 3 } (8 * (seg : Int)) 8 le_rfl
  simp only [Nat.cast_ofNat] at h
  have e : colsDown.foldl
      (fun (t : State) (x : Nat) => setBoard t seg x (boardAt t seg ((x : Int) - 1)))
      { s with lastMove := 3 } =
      { s with
        lastMove := 3
        board := fun j =>
          if 8 * (seg : Int) + 8 - 8 ≤ j ∧ j < 8 * (seg : Int) + 8 then s.board (j - 1)
          else s.board j } := by
    rw [colsDown_eq, List.foldl_map]
    refine Eq.trans (List.foldl_ext _ _ _ ?_) h
    intro t i hi
    have hi8 : i < 8 := List.mem_range.mp hi
    simp only [setBoard, boardAt, State.mk.injEq, and_true, true_and]
    funext j
    have c : ((7 - i : Nat) : Int) = 7 - (i : Int) := by omega
    rw [c]
    refine if_congr (by constructor <;> intro <;> omega) ?_ rfl
    congr 1; ring
  simp only [moveRight]
  rw [e]
  simp only [setBoard, boardAt, State.mk.injEq, and_true, true_and, add_zero]
  funext j
  by_cases h0 : j = 8 * (seg : Int)
  · subst h0; rw [if_pos rfl, if_neg (by omega), if_pos rfl]
  · rw [if_neg h0, if_neg h0]
    by_cases h1 : 8 * (seg : Int) + 8 - 8 ≤ j ∧ j < 8 * (seg : Int) + 8
    · rw [if_pos h1, if_pos (by omega)]
    · rw [if_neg h1, if_neg (by omega)]

/-- Closed form of the row copy of `move`. -/
theorem copySeg_eq (seg : Nat) (s : State) :
    copySeg (seg + 1) s =
      { s with board := fun j =>
          if 8 * ((seg + 1 : Nat) : Int) ≤ j ∧ j < 8 * ((seg + 1 : Nat) : Int) + 8 then
            s.board (j - 8)
          else s.board j } := by
  have h := sweep_up s (8 * ((seg + 1 : Nat) : Int)) (-8) id (Or.inr le_rfl) 8 le_rfl
  simp only [Nat.cast_ofNat, id] at h
  rw [copySeg, cols_eq_range]
  refine Eq.trans (List.foldl_ext _ _ _ ?_) (h.trans ?_)
  · intro t x _
    simp only [boardAt, setBoard, Nat.add_sub_cancel, State.mk.injEq, and_true, true_and]
    funext j
    refine if_congr Iff.rfl ?_ rfl
    congr 1; push_cast; ring
  · simp only [State.mk.injEq, and_true, true_and]
    funext j
    refine if_congr Iff.rfl ?_ rfl
    congr 1

end sweeps

/-! ## The moves in terms of `board[seg][x]` -/

section cells

theorem boardAt_moveUp (seg : Nat) (s : State) (i x : Nat) (hx : x < 8) :
    boardAt (moveUp seg s) i x =
      if i = seg then (if boardAt s i x = 128 then 1 else boardAt s i x * 2 % 256)
      else boardAt s i x := by
  simp only [boardAt, moveUp_eq]
  by_cases h : i = seg
  · subst h; rw [if_pos (by omega), if_pos rfl]
  · rw [if_neg (by omega), if_neg h]

theorem boardAt_moveDown (seg : Nat) (s : State) (i x : Nat) (hx : x < 8) :
    boardAt (moveDown seg s) i x =
      if i = seg then (if boardAt s i x = 1 then 128 else boardAt s i x / 2)
      else boardAt s i x := by
  simp only [boardAt, moveDown_eq]
  by_cases h : i = seg
  · subst h; rw [if_pos (by omega), if_pos rfl]
  · rw [if_neg (by omega), if_neg h]

theorem boardAt_moveLeft (seg : Nat) (s : State) (i x : Nat) (hx : x < 8) :
    boardAt (moveLeft seg s) i x =
      if i = seg then boardAt s i ((x + 1) % 8 : Nat) else boardAt s i x := by
  simp only [boardAt, moveLeft_eq]
  by_cases h : i = seg
  · subst h
    rw [if_pos rfl]
    by_cases h7 : x = 7
    · subst h7; rw [if_neg (by omega), if_pos (by omega)]; simp
    · rw [if_pos (by omega)]
      have e : (x + 1) % 8 = x + 1 := Nat.mod_eq_of_lt (by omega)
      rw [e]; congr 1
  · rw [if_neg (by omega), if_neg (by omega), if_neg h]

theorem boardAt_moveRight (seg : Nat) (s : State) (i x : Nat) (hx : x < 8) :
    boardAt (moveRight seg s) i x =
      if i = seg then boardAt s i ((x + 7) % 8 : Nat) else boardAt s i x := by
  simp only [boardAt, moveRight_eq]
  by_cases h : i = seg
  · subst h
    rw [if_pos rfl]
    by_cases h0 : x = 0
    · subst h0; rw [if_neg (by omega), if_pos (by omega)]; simp
    · rw [if_pos (by omega)]
      have e : (x + 7) % 8 = x - 1 := by omega
      rw [e]; congr 1; omega
  · rw [if_neg (by omega), if_neg (by omega), if_neg h]

/-- Closed form of the body shift. -/
theorem shiftBody_eq (n : Nat) (s : State) :
    shiftBody n s =
      { s with board := fun j =>
          if 8 ≤ j ∧ j < 8 * ((n : Int) + 1) then s.board (j - 8) else s.board j } := by
  induction n generalizing s with
  | zero =>
    cases s; simp only [shiftBody, State.mk.injEq, and_true, true_and]
    funext j; rw [if_neg]; omega
  | succ n ih =>
    rw [shiftBody, ih, copySeg_eq]
    simp only [State.mk.injEq, and_true, true_and]
    funext j
    push_cast
    by_cases h1 : 8 ≤ j ∧ j < 8 * ((n : Int) + 1)
    · rw [if_pos h1, if_neg (by omega), if_pos (by omega)]
    · rw [if_neg h1]
      by_cases h2 : 8 * ((n : Int) + 1) ≤ j ∧ j < 8 * ((n : Int) + 1) + 8
      · rw [if_pos h2, if_pos (by omega)]
      · rw [if_neg h2, if_neg (by omega)]

theorem boardAt_shiftBody (n : Nat) (s : State) (i x : Nat) (hx : x < 8) :
    boardAt (shiftBody n s) i x =
      if 1 ≤ i ∧ i ≤ n then boardAt s (i - 1) x else boardAt s i x := by
  simp only [boardAt, shiftBody_eq]
  by_cases h : 1 ≤ i ∧ i ≤ n
  · rw [if_pos (by omega), if_pos h]; congr 1; omega
  · rw [if_neg (by omega), if_neg h]

theorem moveLoop_eq (n : Nat) (s : State) :
    moveLoop n s = checkFood (steer (shiftBody n s)) := by
  induction n generalizing s with
  | zero => rfl
  | succ n ih => rw [moveLoop, ih, shiftBody]

theorem move_eq (s : State) : move s = checkFood (moved s) :=
  moveLoop_eq s.segCount s

end cells

/-! ## Frame and shape of `checkFood` and its parts -/

section check

theorem foldl_inv {α β : Type} (P : β → Prop) (f : β → α → β)
    (hf : ∀ b a, P b → P (f b a)) : ∀ (l : List α) (b : β), P b → P (l.foldl f b) := by
  intro l
  induction l with
  | nil => intro b hb; exact hb
  | cons a l ih => intro b hb; exact ih _ (hf b a hb)

theorem kept_refl (s : State) : Kept s s := ⟨rfl, rfl, rfl, rfl, rfl, rfl⟩

theorem kept_place (s u : State) (h : Kept s u) : Kept s (placeFood (clearFood u)) := h

theorem reroll_kept (s : State) : Kept s (reroll s) := by
  unfold reroll
  refine foldl_inv (Kept s) _ ?_ _ _ (kept_refl s)
  intro t x ht
  refine foldl_inv (Kept s) _ ?_ _ _ ht
  intro u seg hu
  split
  · exact kept_place s u hu
  · exact hu

theorem placed_fields (s : State) :
    (placeFood (announce (clearFood s))).board = s.board ∧
    (placeFood (announce (clearFood s))).segCount = s.segCount ∧
    (placeFood (announce (clearFood s))).lastMove = s.lastMove ∧
    (placeFood (announce (clearFood s))).xVal = s.xVal ∧
    (placeFood (announce (clearFood s))).yVal = s.yVal ∧
    (placeFood (announce (clearFood s))).out = s.out ++ [Event.serial (s.rng 0)] :=
  ⟨rfl, rfl, rfl, rfl, rfl, rfl⟩

theorem eat_fields (s : State) :
    (eat s).board = s.board ∧ (eat s).segCount = s.segCount + 1 ∧
    (eat s).lastMove = s.lastMove ∧ (eat s).xVal = s.xVal ∧ (eat s).yVal = s.yVal ∧
    (eat s).out = s.out ++ [Event.serial (s.rng 0)] := by
  have k := reroll_kept (placeFood (announce (clearFood s)))
  have p := placed_fields s
  unfold Kept at k
  unfold eat
  generalize placeFood (announce (clearFood s)) = u at k p ⊢
  generalize reroll u = v at k ⊢
  obtain ⟨k1, k2, k3, k4, k5, k6⟩ := k
  obtain ⟨p1, p2, p3, p4, p5, p6⟩ := p
  exact ⟨k1.trans p1, by show v.segCount + 1 = _; rw [k2, p2], k3.trans p3, k4.trans p4,
    k5.trans p5, k6.trans p6⟩

theorem eat_board (s : State) : (eat s).board = s.board := (eat_fields s).1

theorem eat_segCount (s : State) : (eat s).segCount = s.segCount + 1 := (eat_fields s).2.1

theorem eat_lastMove (s : State) : (eat s).lastMove = s.lastMove := (eat_fields s).2.2.1

theorem eat_xVal (s : State) : (eat s).xVal = s.xVal := (eat_fields s).2.2.2.1

theorem eat_yVal (s : State) : (eat s).yVal = s.yVal := (eat_fields s).2.2.2.2.1

theorem eat_out (s : State) : (eat s).out = s.out ++ [Event.serial (s.rng 0)] :=
  (eat_fields s).2.2.2.2.2

theorem loseLoop_cases (x : Nat) (fuel seg : Nat) (s : State) :
    loseLoop x fuel seg s = s ∨
    ∃ m, loseLoop x fuel seg s =
      { s with segCount := 3, out := s.out ++ List.replicate (m + 1) Event.loseShown } := by
  induction fuel generalizing seg s with
  | zero => exact Or.inl rfl
  | succ fuel ih =>
    rw [loseLoop]
    split
    · split
      · right
        rcases ih (seg + 1) (lose s) with h | ⟨m, h⟩
        · exact ⟨0, by rw [h]; rfl⟩
        · refine ⟨m + 1, ?_⟩
          rw [h]
          simp only [lose, State.mk.injEq, and_true, true_and, List.append_assoc]
          rw [List.replicate_succ (n := m + 1)]; rfl
      · exact ih (seg + 1) s
    · exact Or.inl rfl

theorem loseLoop_noop (x : Nat) (fuel seg : Nat) (s : State)
    (h : ∀ k, seg ≤ k → k < s.segCount → ¬ bodyHit s x k) : loseLoop x fuel seg s = s := by
  induction fuel generalizing seg with
  | zero => rfl
  | succ fuel ih =>
    rw [loseLoop]
    split
    · rename_i hlt
      rw [if_neg (h seg le_rfl hlt)]
      exact ih (seg + 1) (fun k hk => h k (by omega))
    · rfl

theorem loseLoop_hit (x : Nat) (fuel seg : Nat) (s : State)
    (h : ∃ k, seg ≤ k ∧ k < s.segCount ∧ bodyHit s x k) (hfuel : s.segCount ≤ seg + fuel) :
    ∃ m, loseLoop x fuel seg s =
      { s with segCount := 3, out := s.out ++ List.replicate (m + 1) Event.loseShown } := by
  induction fuel generalizing seg with
  | zero => obtain ⟨k, h1, h2, _⟩ := h; omega
  | succ fuel ih =>
    obtain ⟨k, h1, h2, h3⟩ := h
    rw [loseLoop, if_pos (by omega)]
    by_cases hs : bodyHit s x seg
    · rw [if_pos hs]
      rcases loseLoop_cases x fuel (seg + 1) (lose s) with e | ⟨m, e⟩
      · exact ⟨0, by rw [e]; rfl⟩
      · refine ⟨m + 1, ?_⟩
        rw [e]
        simp only [lose, State.mk.injEq, and_true, true_and, List.append_assoc]
        rw [List.replicate_succ (n := m + 1)]; rfl
    · rw [if_neg hs]
      have hk : seg ≠ k := fun e => hs (e ▸ h3)
      exact ih (seg + 1) ⟨k, by omega, h2, h3⟩ (by omega)

/-- The pass bound of `loseLoop` is never what stops the loop: once
`max segCount 3 ≤ seg + fuel`, more fuel gives the same result. -/
theorem loseLoop_fuel (x : Nat) (fuel k seg : Nat) (s : State)
    (h : max s.segCount 3 ≤ seg + fuel) :
    loseLoop x (fuel + k) seg s = loseLoop x fuel seg s := by
  induction fuel generalizing seg s with
  | zero =>
    have hs : ¬ seg < s.segCount := by
      have := le_max_left s.segCount 3
      omega
    rcases k with _ | k
    · rfl
    · rw [Nat.zero_add]
      show loseLoop x (k + 1) seg s = s
      rw [loseLoop, if_neg hs]
  | succ fuel ih =>
    rw [show fuel + 1 + k = (fuel + k) + 1 by omega, loseLoop, loseLoop]
    split
    · split
      · exact ih (seg + 1) (lose s) (by
          show max 3 3 ≤ _
          have := le_max_right s.segCount 3
          simp only [max_self]; omega)
      · exact ih (seg + 1) s (by omega)
    · rfl

/-- The self-collision loop calls `lose()` exactly if some segment from 1 up
to `segCount - 1` matches the head in column `x`; it then leaves
`segCount = 3`, and otherwise changes nothing. -/
theorem selfCheck_spec (x : Nat) (s : State) :
    ((∃ k, 1 ≤ k ∧ k < s.segCount ∧ bodyHit s x k) ∧
      ∃ m, selfCheck x s =
        { s with segCount := 3, out := s.out ++ List.replicate (m + 1) Event.loseShown }) ∨
    ((¬ ∃ k, 1 ≤ k ∧ k < s.segCount ∧ bodyHit s x k) ∧ selfCheck x s = s) := by
  by_cases h : ∃ k, 1 ≤ k ∧ k < s.segCount ∧ bodyHit s x k
  · exact Or.inl ⟨h, loseLoop_hit x _ 1 s h (by omega)⟩
  · refine Or.inr ⟨h, loseLoop_noop x _ 1 s ?_⟩
    intro k h1 h2 h3
    exact h ⟨k, h1, h2, h3⟩

end check

/-! ## One column pass, and `checkFood` for a one-bit head -/

section pass

theorem emitted_of_append (s t : State) (l : List Event) (h : t.out = s.out ++ l) :
    emitted s t = l := by
  unfold emitted; rw [h]; exact List.drop_left _ _

/-- What the self-collision loop and the win check leave behind. -/
theorem tail_spec (x : Nat) (u : State) :
    (winCheck (selfCheck x u)).board = u.board ∧
    (winCheck (selfCheck x u)).food = u.food ∧
    (winCheck (selfCheck x u)).rng = u.rng ∧
    (winCheck (selfCheck x u)).lastMove = u.lastMove ∧
    (winCheck (selfCheck x u)).xVal = u.xVal ∧
    (winCheck (selfCheck x u)).yVal = u.yVal ∧
    ((winCheck (selfCheck x u)).segCount = u.segCount ∨
      (winCheck (selfCheck x u)).segCount = 3) ∧
    (winCheck (selfCheck x u)).segCount < kWinCount ∧
    ∃ l, (winCheck (selfCheck x u)).out = u.out ++ l ∧ ∀ e ∈ l, isSerial e = false := by
  rcases selfCheck_spec x u with ⟨_, m, e⟩ | ⟨_, e⟩
  · rw [e]
    unfold winCheck
    rw [if_neg (by simp [kWinCount])]
    refine ⟨rfl, rfl, rfl, rfl, rfl, rfl, Or.inr rfl, by simp [kWinCount], _, rfl, ?_⟩
    intro ev hev
    rw [List.eq_of_mem_replicate hev]; rfl
  · rw [e]
    unfold winCheck
    split
    · refine ⟨rfl, rfl, rfl, rfl, rfl, rfl, Or.inr rfl, by simp [win, kWinCount], _, rfl, ?_⟩
      intro ev hev
      rw [List.mem_singleton.mp hev]; rfl
    · rename_i h
      exact ⟨rfl, rfl, rfl, rfl, rfl, rfl, Or.inl rfl, by omega, [], by simp, by simp⟩

theorem checkCol_board (x : Nat) (s : State) : (checkCol x s).board = s.board := by
  unfold checkCol
  rw [(tail_spec x _).1]
  unfold foodCheck
  split
  · exact eat_board s
  · rfl

theorem checkCol_lt (x : Nat) (s : State) : (checkCol x s).segCount < kWinCount :=
  (tail_spec x _).2.2.2.2.2.2.2.1

theorem checkCol_noop (x : Nat) (s : State) (h0 : boardAt s 0 x = 0)
    (hn : s.segCount < kWinCount) : checkCol x s = s := by
  have e1 : foodCheck x s = s := by
    unfold foodCheck
    rw [if_neg (fun h => h.2 h0)]
  have e2 : selfCheck x s = s :=
    loseLoop_noop x _ 1 s (fun k _ _ h => h.2 h0)
  unfold checkCol
  rw [e1, e2]
  unfold winCheck
  rw [if_neg (by omega)]

theorem foldl_checkCol_noop (l : List Nat) (s : State) (h0 : ∀ x ∈ l, boardAt s 0 x = 0)
    (hn : s.segCount < kWinCount) : l.foldl (fun (t : State) (x : Nat) => checkCol x t) s = s := by
  induction l with
  | nil => rfl
  | cons a l ih =>
    rw [List.foldl_cons, checkCol_noop a s (h0 a (List.mem_cons_self a l)) hn]
    exact ih (fun x hx => h0 x (List.mem_cons_of_mem a hx))

theorem cols_split (c : Nat) (hc : c < 8) :
    cols = List.range c ++ c :: List.range' (c + 1) (7 - c) := by
  interval_cases c <;> rfl

/-- With a head that is empty outside column `c` and `segCount` below the win
threshold, only the pass for column `c` does anything. -/
theorem checkFood_single (s : State) (c : Nat) (hc : c < 8)
    (h0 : ∀ x, x < 8 → x ≠ c → boardAt s 0 x = 0) (hn : s.segCount < kWinCount) :
    checkFood s = checkCol c s := by
  unfold checkFood
  rw [cols_split c hc, List.foldl_append, List.foldl_cons]
  rw [foldl_checkCol_noop (List.range c) s ?_ hn]
  · refine foldl_checkCol_noop _ _ ?_ (checkCol_lt c s)
    intro x hx
    rw [List.mem_range'_1] at hx
    show (checkCol c s).board _ = 0
    rw [checkCol_board]
    exact h0 x (by omega) (by omega)
  · intro x hx
    rw [List.mem_range] at hx
    exact h0 x (by omega) (by omega)

theorem litAt_zero {g : Nat → Nat} {c r : Nat} (h : LitAt g c r) (x : Nat) (hx : x < 8)
    (hxc : x ≠ c) : g x = 0 := by
  rw [h.2.2 x hx, if_neg hxc]

theorem litAt_col {g : Nat → Nat} {c r : Nat} (h : LitAt g c r) : g c = 2 ^ r := by
  rw [h.2.2 c h.1, if_pos rfl]

theorem two_pow_inj8 {a b : Nat} (h : 2 ^ a = 2 ^ b) : a = b :=
  Nat.pow_right_injective le_rfl h

/-- For a one-bit head at `(c, r)` and one-bit food at `(fc, fr)`, the food
branch condition in column `c` says that the two cells are the same. -/
theorem foodHit_iff (s : State) (c r fc fr : Nat) (hh : LitAt (segGrid s 0) c r)
    (hf : LitAt s.food fc fr) : foodHit s c ↔ (c = fc ∧ r = fr) := by
  have e1 : boardAt s 0 c = 2 ^ r := litAt_col hh
  unfold foodHit
  rw [e1, hf.2.2 c hh.1]
  constructor
  · rintro ⟨h1, _⟩
    by_cases hcf : c = fc
    · rw [if_pos hcf] at h1
      exact ⟨hcf, two_pow_inj8 h1⟩
    · rw [if_neg hcf] at h1
      exact absurd h1 (by positivity)
  · rintro ⟨rfl, rfl⟩
    rw [if_pos rfl]
    exact ⟨rfl, by positivity⟩

end pass

/-! ## The four moves on a one-cell grid -/

section onecell

theorem litAt_moveUp (s : State) (seg c r : Nat) (h : LitAt (segGrid s seg) c r) :
    LitAt (segGrid (moveUp seg s) seg) c ((r + 1) % 8) := by
  obtain ⟨hc, hr, hg⟩ := h
  refine ⟨hc, Nat.mod_lt _ (by decide), fun x hx => ?_⟩
  have e := hg x hx
  simp only [segGrid] at e ⊢
  rw [boardAt_moveUp seg s seg x hx, if_pos rfl, e]
  by_cases hxc : x = c
  · rw [if_pos hxc, if_pos hxc]
    interval_cases r <;> rfl
  · rw [if_neg hxc, if_neg hxc]; rfl

theorem litAt_moveDown (s : State) (seg c r : Nat) (h : LitAt (segGrid s seg) c r) :
    LitAt (segGrid (moveDown seg s) seg) c ((r + 7) % 8) := by
  obtain ⟨hc, hr, hg⟩ := h
  refine ⟨hc, Nat.mod_lt _ (by decide), fun x hx => ?_⟩
  have e := hg x hx
  simp only [segGrid] at e ⊢
  rw [boardAt_moveDown seg s seg x hx, if_pos rfl, e]
  by_cases hxc : x = c
  · rw [if_pos hxc, if_pos hxc]
    interval_cases r <;> rfl
  · rw [if_neg hxc, if_neg hxc]; rfl

theorem litAt_moveLeft (s : State) (seg c r : Nat) (h : LitAt (segGrid s seg) c r) :
    LitAt (segGrid (moveLeft seg s) seg) ((c + 7) % 8) r := by
  obtain ⟨hc, hr, hg⟩ := h
  refine ⟨Nat.mod_lt _ (by decide), hr, fun x hx => ?_⟩
  have e := hg ((x + 1) % 8) (Nat.mod_lt _ (by decide))
  simp only [segGrid] at e ⊢
  rw [boardAt_moveLeft seg s seg x hx, if_pos rfl, e]
  by_cases hxc : (x + 1) % 8 = c
  · rw [if_pos hxc, if_pos (by omega)]
  · rw [if_neg hxc, if_neg (by omega)]

theorem litAt_moveRight (s : State) (seg c r : Nat) (h : LitAt (segGrid s seg) c r) :
    LitAt (segGrid (moveRight seg s) seg) ((c + 1) % 8) r := by
  obtain ⟨hc, hr, hg⟩ := h
  refine ⟨Nat.mod_lt _ (by decide), hr, fun x hx => ?_⟩
  have e := hg ((x + 7) % 8) (Nat.mod_lt _ (by decide))
  simp only [segGrid] at e ⊢
  rw [boardAt_moveRight seg s seg x hx, if_pos rfl, e]
  by_cases hxc : (x + 7) % 8 = c
  · rw [if_pos hxc, if_pos (by omega)]
  · rw [if_neg hxc, if_neg (by omega)]

theorem sameGrid_of_litAt {g h : Nat → Nat} {c r c' r' : Nat} (hg : LitAt g c r)
    (hh : LitAt h c' r') (hc : c = c') (hr : r = r') : SameGrid g h := by
  intro x hx
  rw [hg.2.2 x hx, hh.2.2 x hx, hc, hr]

end onecell

/-- C3. Movement with wraparound equals the coordinate model.  If the grid
of segment `seg` has its one lit cell in column `c` (below 8) and row `r`
(column byte `2 ^ r`, `r` below 8), then after `moveUp` the grid is the
one-cell grid at `(c, (r + 1) mod 8)` (so the byte 128 becomes 1), after
`moveDown` it is at `(c, (r - 1) mod 8)`, written `(r + 7) % 8` (so 1 becomes
128), after `moveLeft` at `((c - 1) mod 8, r)`, written `(c + 7) % 8`
(column 0 wraps to 7), and after `moveRight` at `((c + 1) mod 8, r)` (column
7 wraps to 0); hence `moveDown` undoes `moveUp` and `moveRight` undoes
`moveLeft` on such a grid. -/
theorem moves_follow_coordinates (s : State) (seg c r : Nat)
    (h : LitAt (segGrid s seg) c r) :
    LitAt (segGrid (moveUp seg s) seg) c ((r + 1) % 8) ∧
    LitAt (segGrid (moveDown seg s) seg) c ((r + 7) % 8) ∧
    LitAt (segGrid (moveLeft seg s) seg) ((c + 7) % 8) r ∧
    LitAt (segGrid (moveRight seg s) seg) ((c + 1) % 8) r ∧
    SameGrid (segGrid (moveDown seg (moveUp seg s)) seg) (segGrid s seg) ∧
    SameGrid (segGrid (moveRight seg (moveLeft seg s)) seg) (segGrid s seg) := by
  have hc := h.1
  have hr := h.2.1
  refine ⟨litAt_moveUp s seg c r h, litAt_moveDown s seg c r h, litAt_moveLeft s seg c r h,
    litAt_moveRight s seg c r h, ?_, ?_⟩
  · exact sameGrid_of_litAt (litAt_moveDown _ seg c _ (litAt_moveUp s seg c r h)) h rfl
      (by omega)
  · exact sameGrid_of_litAt (litAt_moveRight _ seg _ r (litAt_moveLeft s seg c r h)) h
      (by omega) rfl

/-- C3 applied to a head in the corner cell, column 7 and row 7: `moveUp`
wraps the row to 0 and `moveRight` wraps the column to 0. -/
theorem moves_follow_coordinates_witness :
    LitAt (segGrid cornerState 0) 7 7 ∧
    LitAt (segGrid (moveUp 0 cornerState) 0) 7 0 ∧
    LitAt (segGrid (moveRight 0 cornerState) 0) 0 7 :=
  ⟨by decide,
   (moves_follow_coordinates cornerState 0 7 7 (by decide)).1,
   (moves_follow_coordinates cornerState 0 7 7 (by decide)).2.2.2.1⟩

/-! ## The tick: body shift, steering, check -/

section tickparts

theorem steer_eq_advance (s : State) :
    steer s = advance (intendedDir s.lastMove s.xVal s.yVal) 0 s := by
  unfold steer intendedDir
  split
  · rfl
  · split
    · rfl
    · split
      · rfl
      · split
        · rfl
        · generalize s.lastMove = d
          rcases d with _ | _ | _ | _ | d <;> rfl

theorem advance_lastMove (d : Nat) (seg : Nat) (s : State) (h : 3 < d → s.lastMove = d) :
    (advance d seg s).lastMove = d := by
  rcases d with _ | _ | _ | _ | d
  · show (moveUp seg s).lastMove = 0
    rw [moveUp_eq]
  · show (moveDown seg s).lastMove = 1
    rw [moveDown_eq]
  · show (moveLeft seg s).lastMove = 2
    rw [moveLeft_eq]
  · show (moveRight seg s).lastMove = 3
    rw [moveRight_eq]
  · exact h (by omega)

theorem steer_lastMove (s : State) :
    (steer s).lastMove = intendedDir s.lastMove s.xVal s.yVal := by
  rw [steer_eq_advance]
  apply advance_lastMove
  intro h
  unfold intendedDir at h ⊢
  split_ifs at h ⊢ <;> first | rfl | omega

theorem boardAt_advance (d seg : Nat) (s : State) (i x : Nat) (hi : i ≠ seg) (hx : x < 8) :
    boardAt (advance d seg s) i x = boardAt s i x := by
  unfold advance
  split
  · rw [boardAt_moveUp _ _ _ _ hx, if_neg hi]
  · rw [boardAt_moveDown _ _ _ _ hx, if_neg hi]
  · rw [boardAt_moveLeft _ _ _ _ hx, if_neg hi]
  · rw [boardAt_moveRight _ _ _ _ hx, if_neg hi]
  · rfl

/-- The new grid of the moved segment depends only on its old grid. -/
theorem boardAt_advance_congr (d seg : Nat) (s t : State)
    (h : ∀ x : Nat, x < 8 → boardAt s seg x = boardAt t seg x) (x : Nat) (hx : x < 8) :
    boardAt (advance d seg s) seg x = boardAt (advance d seg t) seg x := by
  unfold advance
  split
  · rw [boardAt_moveUp _ _ _ _ hx, boardAt_moveUp _ _ _ _ hx, h x hx]
  · rw [boardAt_moveDown _ _ _ _ hx, boardAt_moveDown _ _ _ _ hx, h x hx]
  · rw [boardAt_moveLeft _ _ _ _ hx, boardAt_moveLeft _ _ _ _ hx, if_pos rfl, if_pos rfl,
      h _ (Nat.mod_lt _ (by decide))]
  · rw [boardAt_moveRight _ _ _ _ hx, boardAt_moveRight _ _ _ _ hx, if_pos rfl, if_pos rfl,
      h _ (Nat.mod_lt _ (by decide))]
  · exact h x hx

theorem advance_fields (d seg : Nat) (s : State) :
    (advance d seg s).food = s.food ∧ (advance d seg s).segCount = s.segCount ∧
    (advance d seg s).xVal = s.xVal ∧ (advance d seg s).yVal = s.yVal ∧
    (advance d seg s).rng = s.rng ∧ (advance d seg s).out = s.out := by
  unfold advance
  split
  · rw [moveUp_eq]; exact ⟨rfl, rfl, rfl, rfl, rfl, rfl⟩
  · rw [moveDown_eq]; exact ⟨rfl, rfl, rfl, rfl, rfl, rfl⟩
  · rw [moveLeft_eq]; exact ⟨rfl, rfl, rfl, rfl, rfl, rfl⟩
  · rw [moveRight_eq]; exact ⟨rfl, rfl, rfl, rfl, rfl, rfl⟩
  · exact ⟨rfl, rfl, rfl, rfl, rfl, rfl⟩

theorem shiftBody_fields (n : Nat) (s : State) :
    (shiftBody n s).food = s.food ∧ (shiftBody n s).segCount = s.segCount ∧
    (shiftBody n s).lastMove = s.lastMove ∧ (shiftBody n s).xVal = s.xVal ∧
    (shiftBody n s).yVal = s.yVal ∧ (shiftBody n s).rng = s.rng ∧
    (shiftBody n s).out = s.out := by
  rw [shiftBody_eq]; exact ⟨rfl, rfl, rfl, rfl, rfl, rfl, rfl⟩

theorem checkCol_lastMove (x : Nat) (s : State) : (checkCol x s).lastMove = s.lastMove := by
  unfold checkCol
  rw [(tail_spec x _).2.2.2.1]
  unfold foodCheck
  split
  · exact eat_lastMove s
  · rfl

theorem checkFood_board (s : State) : (checkFood s).board = s.board := by
  unfold checkFood
  refine foldl_inv (fun (t : State) => t.board = s.board) _ ?_ _ _ rfl
  intro t x ht
  rw [checkCol_board, ht]

theorem checkFood_lastMove (s : State) : (checkFood s).lastMove = s.lastMove := by
  unfold checkFood
  refine foldl_inv (fun (t : State) => t.lastMove = s.lastMove) _ ?_ _ _ rfl
  intro t x ht
  rw [checkCol_lastMove, ht]

theorem boardAt_checkFood (s : State) (i : Nat) (x : Int) :
    boardAt (checkFood s) i x = boardAt s i x := by
  unfold boardAt; rw [checkFood_board]

/-- Rows of the board when `move` calls `checkFood`: the head row is the old
head row advanced in the selected direction, and row `i` with
`1 ≤ i ≤ segCount` is the old row `i - 1`. -/
theorem boardAt_moved (s : State) (i x : Nat) (hx : x < 8) :
    boardAt (moved s) i x =
      if i = 0 then boardAt (advance (intendedDir s.lastMove s.xVal s.yVal) 0 s) 0 x
      else if i ≤ s.segCount then boardAt s (i - 1) x
      else boardAt s i x := by
  unfold moved
  rw [steer_eq_advance]
  have f := shiftBody_fields s.segCount s
  rw [f.2.2.1, f.2.2.2.1, f.2.2.2.2.1]
  by_cases hi : i = 0
  · subst hi
    rw [if_pos rfl]
    refine boardAt_advance_congr _ _ _ _ ?_ x hx
    intro y hy
    rw [boardAt_shiftBody _ _ _ _ hy, if_neg (by omega)]
  · rw [if_neg hi, boardAt_advance _ _ _ _ _ hi hx, boardAt_shiftBody _ _ _ _ hx]
    by_cases h2 : i ≤ s.segCount
    · rw [if_pos ⟨by omega, h2⟩, if_pos h2]
    · rw [if_neg (fun h => h2 h.2), if_neg h2]

theorem moved_fields (s : State) :
    (moved s).food = s.food ∧ (moved s).segCount = s.segCount ∧
    (moved s).rng = s.rng ∧ (moved s).out = s.out ∧
    (moved s).lastMove = intendedDir s.lastMove s.xVal s.yVal := by
  have f := shiftBody_fields s.segCount s
  have a := advance_fields (intendedDir (shiftBody s.segCount s).lastMove
    (shiftBody s.segCount s).xVal (shiftBody s.segCount s).yVal) 0 (shiftBody s.segCount s)
  have l := steer_lastMove (shiftBody s.segCount s)
  unfold moved
  rw [steer_eq_advance] at l ⊢
  rw [f.2.2.1, f.2.2.2.1, f.2.2.2.2.1] at a l ⊢
  exact ⟨a.1.trans f.1, a.2.1.trans f.2.1, a.2.2.2.2.1.trans f.2.2.2.2.2.1,
    a.2.2.2.2.2.trans f.2.2.2.2.2.2, l⟩

theorem not_opposite_intended (l : Nat) (x y : Int) : ¬ Opposite l (intendedDir l x y) := by
  unfold Opposite
  rintro (⟨a, b⟩ | ⟨a, b⟩ | ⟨a, b⟩ | ⟨a, b⟩) <;> unfold intendedDir at b <;>
    split_ifs at b <;> omega

end tickparts

/-- C2. Body follows head: after `move()`, every non-head segment `i` with
`1 ≤ i ≤ segCount` (the count before the tick) holds, in each of its eight
columns, the byte that segment `i - 1` held before the tick, whatever the
readings, the random draws, and whether food was eaten or `win()` or
`lose()` ran in that tick. -/
theorem body_follows_head (s : State) (i x : Nat) (h1 : 1 ≤ i) (h2 : i ≤ s.segCount)
    (hx : x < 8) : boardAt (move s) i x = boardAt s (i - 1) x := by
  rw [move_eq, boardAt_checkFood, boardAt_moved s i x hx, if_neg (by omega), if_pos h2]

/-- C2 on the first tick of the game with a Left intent: segment 3, the row
written at index `segCount`, takes the cell of segment 2. -/
theorem body_follows_head_witness :
    boardAt (tick 0 500 (fun _ => 0) (initState (fun _ => 0) (fun _ => 0))) 3 4 = 8 :=
  body_follows_head { initState (fun _ => 0) (fun _ => 0) with xVal := 0, yVal := 500 }
    3 4 (by decide) (by decide) (by decide)

/-- C4. Direction selection in `move()`: for every `lastMove` and any
readings, the direction latched after the tick is the one the specification
names (`intendedDir`: Up if `yVal > 600` and not moving Down, otherwise Down
if `yVal < 400` and not moving Up, otherwise Left if `xVal < 400` and not
moving Right, otherwise Right if `xVal > 600` and not moving Left, otherwise
`lastMove` again), the head grid after the tick is the old head grid advanced
in that direction, and with both readings in the dead zone 400..600 the
latched direction stays what it was. -/
theorem direction_selection (s : State) :
    (move s).lastMove = intendedDir s.lastMove s.xVal s.yVal ∧
    SameGrid (segGrid (move s) 0)
      (segGrid (advance (intendedDir s.lastMove s.xVal s.yVal) 0 s) 0) ∧
    (400 ≤ s.xVal → s.xVal ≤ 600 → 400 ≤ s.yVal → s.yVal ≤ 600 →
      (move s).lastMove = s.lastMove ∧
      SameGrid (segGrid (move s) 0) (segGrid (advance s.lastMove 0 s) 0)) := by
  have e1 : (move s).lastMove = intendedDir s.lastMove s.xVal s.yVal := by
    rw [move_eq, checkFood_lastMove]; exact (moved_fields s).2.2.2.2
  have e2 : SameGrid (segGrid (move s) 0)
      (segGrid (advance (intendedDir s.lastMove s.xVal s.yVal) 0 s) 0) := by
    intro x hx
    show boardAt (move s) 0 x = _
    rw [move_eq, boardAt_checkFood, boardAt_moved s 0 x hx, if_pos rfl]; rfl
  refine ⟨e1, e2, ?_⟩
  intro h1 h2 h3 h4
  have e3 : intendedDir s.lastMove s.xVal s.yVal = s.lastMove := by
    unfold intendedDir
    rw [if_neg (by omega), if_neg (by omega), if_neg (by omega), if_neg (by omega)]
  rw [e3] at e1 e2
  exact ⟨e1, e2⟩

/-- C4 on the initial state with the stick at rest, both readings 500: the
snake keeps moving Up. -/
theorem direction_selection_witness :
    (tick 500 500 (fun _ => 0) (initState (fun _ => 0) (fun _ => 0))).lastMove = 0 :=
  ((direction_selection
    { initState (fun _ => 0) (fun _ => 0) with xVal := 500, yVal := 500 }).2.2
    (by decide) (by decide) (by decide) (by decide)).1

/-- C5. Reversal rejection: the direction latched after `move()` is never the
opposite (Up/Down, Left/Right) of the one latched before it; and when the
snake moves Up and the readings ask for Down (`yVal < 400`, `xVal = 500`),
the intent is ignored: `lastMove` stays Up and the head is advanced Up. -/
theorem reversal_rejected (s : State) :
    ¬ Opposite s.lastMove (move s).lastMove ∧
    (s.lastMove = 0 → s.yVal < 400 → s.xVal = 500 →
      (move s).lastMove = 0 ∧ SameGrid (segGrid (move s) 0) (segGrid (moveUp 0 s) 0)) := by
  have e1 : (move s).lastMove = intendedDir s.lastMove s.xVal s.yVal := by
    rw [move_eq, checkFood_lastMove]; exact (moved_fields s).2.2.2.2
  have e2 : SameGrid (segGrid (move s) 0)
      (segGrid (advance (intendedDir s.lastMove s.xVal s.yVal) 0 s) 0) := by
    intro x hx
    show boardAt (move s) 0 x = _
    rw [move_eq, boardAt_checkFood, boardAt_moved s 0 x hx, if_pos rfl]; rfl
  constructor
  · rw [e1]
    exact not_opposite_intended _ _ _
  · intro h0 hy hx
    have e3 : intendedDir s.lastMove s.xVal s.yVal = 0 := by
      unfold intendedDir
      rw [if_neg (by omega), if_neg (by omega), if_neg (by omega), if_neg (by omega)]
      exact h0
    rw [e3] at e1 e2
    exact ⟨e1, e2⟩

/-- C5 on the initial state, where the snake moves Up, with the stick pulled
to `yVal = 0`: the latched direction stays Up. -/
theorem reversal_rejected_witness :
    (tick 500 0 (fun _ => 0) (initState (fun _ => 0) (fun _ => 0))).lastMove = 0 :=
  ((reversal_rejected
    { initState (fun _ => 0) (fun _ => 0) with xVal := 500, yVal := 0 }).2
    rfl (by decide) rfl).1

/-! ## The three outcomes of a column pass -/

section outcomes

theorem bodyHit_congr (s t : State) (h : t.board = s.board) (x k : Nat) :
    bodyHit t x k ↔ bodyHit s x k := by
  unfold bodyHit boardAt; rw [h]

theorem foodCheck_board (x : Nat) (u : State) : (foodCheck x u).board = u.board := by
  unfold foodCheck
  split
  · exact eat_board u
  · rfl

/-- A column pass ends in one of three ways: `lose()` ran (at least once) and
`win()` did not; no segment matched and `win()` ran; neither ran. -/
theorem checkCol_shape (x : Nat) (u : State) :
    ((∃ k, 1 ≤ k ∧ k < (foodCheck x u).segCount ∧ bodyHit u x k) ∧
      ∃ m, checkCol x u =
        { foodCheck x u with
          segCount := 3
          out := (foodCheck x u).out ++ List.replicate (m + 1) Event.loseShown }) ∨
    ((¬ ∃ k, 1 ≤ k ∧ k < (foodCheck x u).segCount ∧ bodyHit u x k) ∧
      kWinCount ≤ (foodCheck x u).segCount ∧ checkCol x u = win (foodCheck x u)) ∨
    ((¬ ∃ k, 1 ≤ k ∧ k < (foodCheck x u).segCount ∧ bodyHit u x k) ∧
      (foodCheck x u).segCount < kWinCount ∧ checkCol x u = foodCheck x u) := by
  have hb : ∀ k, bodyHit (foodCheck x u) x k ↔ bodyHit u x k :=
    bodyHit_congr u _ (foodCheck_board x u) x
  unfold checkCol
  rcases selfCheck_spec x (foodCheck x u) with ⟨⟨k, h1, h2, h3⟩, m, e⟩ | ⟨hno, e⟩
  · left
    refine ⟨⟨k, h1, h2, (hb k).mp h3⟩, m, ?_⟩
    rw [e]
    unfold winCheck
    rw [if_neg (by simp [kWinCount])]
  · right
    have hno' : ¬ ∃ k, 1 ≤ k ∧ k < (foodCheck x u).segCount ∧ bodyHit u x k := by
      rintro ⟨k, h1, h2, h3⟩
      exact hno ⟨k, h1, h2, (hb k).mpr h3⟩
    rw [e]
    unfold winCheck
    by_cases hw : (foodCheck x u).segCount ≥ kWinCount
    · left; rw [if_pos hw]; exact ⟨hno', hw, rfl⟩
    · right; rw [if_neg hw]; exact ⟨hno', by omega, rfl⟩

/-- Output of the food branch. -/
theorem foodCheck_out (x : Nat) (u : State) :
    (foodCheck x u).out = u.out ++ (if foodHit u x then [Event.serial (u.rng 0)] else []) := by
  unfold foodCheck
  split
  · exact eat_out u
  · simp

theorem foodCheck_segCount (x : Nat) (u : State) :
    (foodCheck x u).segCount = if foodHit u x then u.segCount + 1 else u.segCount := by
  unfold foodCheck
  split
  · exact eat_segCount u
  · rfl

theorem head_zero_of_litAt (s : State) (c r : Nat) (hh : LitAt (segGrid s 0) c r) :
    ∀ x, x < 8 → x ≠ c → boardAt s 0 x = 0 :=
  fun x hx hxc => litAt_zero hh x hx hxc

end outcomes

section wincheck

theorem mem_emitted_of_append (s t : State) (l : List Event) (h : t.out = s.out ++ l)
    (e : Event) : e ∈ emitted s t ↔ e ∈ l := by
  rw [emitted_of_append s t l h]

/-- The food branch and the self-collision loop never show the smile. -/
theorem pass_out (x : Nat) (u : State) :
    ∃ l, (selfCheck x (foodCheck x u)).out = u.out ++ l ∧ Event.winShown ∉ l := by
  rcases selfCheck_spec x (foodCheck x u) with ⟨_, m, e⟩ | ⟨_, e⟩
  · refine ⟨(if foodHit u x then [Event.serial (u.rng 0)] else []) ++
      List.replicate (m + 1) Event.loseShown, ?_, ?_⟩
    · rw [e]; show (foodCheck x u).out ++ _ = _
      rw [foodCheck_out, List.append_assoc]
    · intro h
      rcases List.mem_append.mp h with h | h
      · split at h <;> simp at h
      · exact Event.noConfusion (List.eq_of_mem_replicate h)
  · refine ⟨if foodHit u x then [Event.serial (u.rng 0)] else [], ?_, ?_⟩
    · rw [e, foodCheck_out]
    · intro h
      split at h <;> simp at h

/-- In every column pass `win()` runs exactly if `segCount` is at least
`kWinCount` when the win check is reached. -/
theorem win_iff_at_check (x : Nat) (u : State) :
    Event.winShown ∈ emitted u (checkCol x u) ↔
      kWinCount ≤ (selfCheck x (foodCheck x u)).segCount := by
  obtain ⟨l, hl, hw⟩ := pass_out x u
  unfold checkCol winCheck
  by_cases h : (selfCheck x (foodCheck x u)).segCount ≥ kWinCount
  · rw [if_pos h]
    rw [mem_emitted_of_append u _ (l ++ [Event.winShown])
      (by show (selfCheck x (foodCheck x u)).out ++ _ = _; rw [hl, List.append_assoc])]
    simp [h]
  · rw [if_neg h, mem_emitted_of_append u _ l hl]
    constructor
    · intro h'; exact absurd h' hw
    · intro h'; exact absurd h' h

end wincheck

/-- C8, as the code has it.  Take `segCount = 39` and a tick after which the
head has its one bit at `(c, r)`, the cell where the one bit of the food was.
The food branch raises `segCount` to 40 and the tick ends with
`segCount = 3`.  If no segment `i` in `1 .. 39` then holds the head's byte in
the head's column, the output of the tick is the serial print followed by
the smile of `win()`.  If some segment does, `lose()` runs, resets
`segCount`, and `win()` is not invoked.  In every column pass of
`checkFood()`, from any state, `win()` is invoked exactly if
`segCount >= kWinCount` at the win check. -/
theorem win_at_forty (s : State) (c r : Nat) (h39 : s.segCount = 39)
    (hh : LitAt (segGrid (move s) 0) c r) (hf : LitAt s.food c r) :
    (eat (moved s)).segCount = 40 ∧
    move s = winCheck (selfCheck c (eat (moved s))) ∧
    (move s).segCount = 3 ∧
    ((¬ ∃ i, 1 ≤ i ∧ i ≤ 39 ∧ boardAt (move s) i c = 2 ^ r) →
      emitted s (move s) = [Event.serial (s.rng 0), Event.winShown]) ∧
    ((∃ i, 1 ≤ i ∧ i ≤ 39 ∧ boardAt (move s) i c = 2 ^ r) →
      Event.loseShown ∈ emitted s (move s) ∧ Event.winShown ∉ emitted s (move s)) ∧
    (∀ (x : Nat) (u : State), Event.winShown ∈ emitted u (checkCol x u) ↔
      kWinCount ≤ (selfCheck x (foodCheck x u)).segCount) := by
  obtain ⟨mf, mc, mr, mo, _⟩ := moved_fields s
  have hb : ∀ (i : Nat) (x : Int), boardAt (move s) i x = boardAt (moved s) i x := by
    intro i x; rw [move_eq, boardAt_checkFood]
  have hh' : LitAt (segGrid (moved s) 0) c r := by
    refine ⟨hh.1, hh.2.1, fun x hx => ?_⟩
    have := hh.2.2 x hx
    simp only [segGrid] at this ⊢
    rw [← hb]; exact this
  have hf' : LitAt (moved s).food c r := by rw [mf]; exact hf
  have hn : (moved s).segCount < kWinCount := by rw [mc, h39]; decide
  have e0 : move s = checkCol c (moved s) := by
    rw [move_eq]
    exact checkFood_single _ c hh.1 (head_zero_of_litAt _ c r hh') hn
  have hit : foodHit (moved s) c := (foodHit_iff _ c r c r hh' hf').mpr ⟨rfl, rfl⟩
  have e1 : foodCheck c (moved s) = eat (moved s) := by unfold foodCheck; rw [if_pos hit]
  have e40 : (eat (moved s)).segCount = 40 := by rw [eat_segCount, mc, h39]
  have eo : (eat (moved s)).out = s.out ++ [Event.serial (s.rng 0)] := by
    rw [eat_out, mo, mr]
  have hc : boardAt (moved s) 0 c = 2 ^ r := litAt_col hh'
  have hbody : ∀ k, bodyHit (moved s) c k ↔ boardAt (move s) k c = 2 ^ r := by
    intro k
    unfold bodyHit
    rw [hb, hc]
    constructor
    · intro h; exact h.1.symm
    · intro h; exact ⟨h.symm, by positivity⟩
  have e2 : move s = winCheck (selfCheck c (eat (moved s))) := by
    rw [e0]; unfold checkCol; rw [e1]
  refine ⟨e40, e2, ?_, ?_, ?_, win_iff_at_check⟩
  · rcases checkCol_shape c (moved s) with ⟨_, m, e⟩ | ⟨_, _, e⟩ | ⟨_, hlt, _⟩
    · rw [e0, e]
    · rw [e0, e]; rfl
    · rw [e1, e40] at hlt; exact absurd hlt (by decide)
  · intro hno
    rcases checkCol_shape c (moved s) with ⟨⟨k, h1, h2, h3⟩, _⟩ | ⟨_, _, e⟩ | ⟨_, hlt, _⟩
    · rw [e1, e40] at h2
      exact absurd ⟨k, h1, by omega, (hbody k).mp h3⟩ hno
    · rw [e1] at e
      apply emitted_of_append
      rw [e0, e]
      show (eat (moved s)).out ++ [Event.winShown] = _
      rw [eo, List.append_assoc]; rfl
    · rw [e1, e40] at hlt; exact absurd hlt (by decide)
  · rintro ⟨i, h1, h2, h3⟩
    rcases checkCol_shape c (moved s) with ⟨_, m, e⟩ | ⟨hno, _⟩ | ⟨hno, _⟩
    · rw [e1] at e
      have eout : (move s).out = s.out ++ ([Event.serial (s.rng 0)] ++
          List.replicate (m + 1) Event.loseShown) := by
        rw [e0, e]
        show (eat (moved s)).out ++ _ = _
        rw [eo, List.append_assoc]
      rw [mem_emitted_of_append s _ _ eout, mem_emitted_of_append s _ _ eout]
      constructor
      · simp [List.replicate_succ]
      · simp [List.replicate_succ]
    · rw [e1, e40] at hno
      exact absurd ⟨i, h1, by omega, (hbody i).mpr h3⟩ hno
    · rw [e1, e40] at hno
      exact absurd ⟨i, h1, by omega, (hbody i).mpr h3⟩ hno

set_option maxHeartbeats 4000000 in
/-- C8 applied to the 39-segment snake of `biteState`, whose head moves onto
the food at `(2, 2)`, a cell that segment 4 holds after the body shift: the
count goes to 40 and ends at 3, and `lose()` runs instead of `win()`. -/
theorem win_at_forty_witness :
    (eat (moved biteState)).segCount = 40 ∧ (move biteState).segCount = 3 ∧
    Event.loseShown ∈ emitted biteState (move biteState) ∧
    Event.winShown ∉ emitted biteState (move biteState) := by
  have hb : LitAt (segGrid (move biteState) 0) 2 2 ∧
      boardAt (move biteState) 4 (2 : Nat) = 2 ^ 2 := by decide!
  have h := win_at_forty biteState 2 2 rfl hb.1 (by decide)
  exact ⟨h.1, h.2.2.1, h.2.2.2.2.1 ⟨4, by decide, by decide, hb.2⟩⟩

/-- C8 fails as stated: with `segCount = 39`, all 39 segments and the food
one-bit, the head of `biteState` moves onto the food cell, `segCount` ends
at 3, but the only outputs of the tick are the serial print and the `X` of
`lose()`: `win()` is not invoked. -/
theorem win_missed_at_forty :
    biteState.segCount = 39 ∧ (∀ i, i < 39 → OneBit (segGrid biteState i)) ∧
    OneBit biteState.food ∧
    SameGrid (segGrid (move biteState) 0) biteState.food ∧
    (move biteState).out = [Event.serial 0, Event.loseShown] ∧
    (move biteState).segCount = 3 := by
  decide!

section selfhit

/-- For a one-bit segment `k` and a head lit at `(c, r)`, the comparison of
the self-collision loop in column `c` succeeds exactly if the two grids are
the same. -/
theorem bodyHit_iff_sameGrid (s : State) (c r k : Nat) (hh : LitAt (segGrid s 0) c r)
    (hk : OneBit (segGrid s k)) :
    bodyHit s c k ↔ SameGrid (segGrid s k) (segGrid s 0) := by
  have hc : boardAt s 0 c = 2 ^ r := litAt_col hh
  constructor
  · rintro ⟨h1, _⟩
    obtain ⟨c', _, r', _, hl⟩ := hk
    have e := hl.2.2 c hh.1
    simp only [segGrid] at e
    rw [← h1, hc] at e
    by_cases hcc : c = c'
    · rw [if_pos hcc] at e
      exact sameGrid_of_litAt hl hh hcc.symm (two_pow_inj8 e).symm
    · rw [if_neg hcc] at e
      exact absurd e (by positivity)
  · intro h
    have e := h c hh.1
    simp only [segGrid] at e
    exact ⟨e.symm, by rw [hc]; positivity⟩

end selfhit

/-- C9. Lose condition, for a state in which `move` calls `checkFood()`:
every segment up to index `segCount` one-bit, the head lit at `(c, r)`, and
`segCount` below the win threshold.  `checkFood()` invokes `lose()` if and
only if some non-head segment `i` with `1 ≤ i < segCount`, the count taken
after the growth of this tick if the food branch ran, has the same grid as
the head; and whenever `lose()` is invoked the tick ends with
`segCount = 3`. -/
theorem lose_iff_body_on_head (s : State) (c r : Nat)
    (hone : ∀ i, i ≤ s.segCount → OneBit (segGrid s i))
    (hh : LitAt (segGrid s 0) c r) (hn : s.segCount < kWinCount) :
    (Event.loseShown ∈ emitted s (checkFood s) ↔
      ∃ i, 1 ≤ i ∧ i < (if foodHit s c then s.segCount + 1 else s.segCount) ∧
        SameGrid (segGrid s i) (segGrid s 0)) ∧
    (Event.loseShown ∈ emitted s (checkFood s) → (checkFood s).segCount = 3) := by
  have e0 : checkFood s = checkCol c s :=
    checkFood_single s c hh.1 (head_zero_of_litAt s c r hh) hn
  have hs := foodCheck_segCount c s
  have ho := foodCheck_out c s
  have hle : (foodCheck c s).segCount ≤ s.segCount + 1 := by
    rw [hs]; split <;> omega
  have nolose : Event.loseShown ∉
      (if foodHit s c then [Event.serial (s.rng 0)] else ([] : List Event)) := by
    intro h; split at h <;> simp at h
  rcases checkCol_shape c s with ⟨⟨k, h1, h2, h3⟩, m, e⟩ | ⟨hno, _, e⟩ | ⟨hno, _, e⟩
  · have eout : (checkFood s).out = s.out ++
        ((if foodHit s c then [Event.serial (s.rng 0)] else []) ++
          List.replicate (m + 1) Event.loseShown) := by
      rw [e0, e]
      show (foodCheck c s).out ++ _ = _
      rw [ho, List.append_assoc]
    have hin : Event.loseShown ∈ emitted s (checkFood s) := by
      rw [mem_emitted_of_append s _ _ eout]
      simp [List.replicate_succ]
    refine ⟨⟨fun _ => ⟨k, h1, hs ▸ h2, ?_⟩, fun _ => hin⟩, fun _ => ?_⟩
    · exact (bodyHit_iff_sameGrid s c r k hh (hone k (by omega))).mp h3
    · rw [e0, e]
  · have eout : (checkFood s).out = s.out ++
        ((if foodHit s c then [Event.serial (s.rng 0)] else []) ++ [Event.winShown]) := by
      rw [e0, e]
      show (foodCheck c s).out ++ _ = _
      rw [ho, List.append_assoc]
    have hnotin : Event.loseShown ∉ emitted s (checkFood s) := by
      rw [mem_emitted_of_append s _ _ eout]
      intro h
      rcases List.mem_append.mp h with h | h
      · exact nolose h
      · simp at h
    refine ⟨⟨fun h => absurd h hnotin, ?_⟩, fun h => absurd h hnotin⟩
    rintro ⟨i, h1, h2, h3⟩
    exact absurd ⟨i, h1, hs ▸ h2,
      (bodyHit_iff_sameGrid s c r i hh (hone i (by rw [← hs] at h2; omega))).mpr h3⟩ hno
  · have eout : (checkFood s).out = s.out ++
        (if foodHit s c then [Event.serial (s.rng 0)] else []) := by
      rw [e0, e, ho]
    have hnotin : Event.loseShown ∉ emitted s (checkFood s) := by
      rw [mem_emitted_of_append s _ _ eout]
      exact nolose
    refine ⟨⟨fun h => absurd h hnotin, ?_⟩, fun h => absurd h hnotin⟩
    rintro ⟨i, h1, h2, h3⟩
    exact absurd ⟨i, h1, hs ▸ h2,
      (bodyHit_iff_sameGrid s c r i hh (hone i (by rw [← hs] at h2; omega))).mpr h3⟩ hno

/-- C9 on `coilState`, where segment 2 sits on the head's cell and
`segCount = 3`: `lose()` is invoked and the count ends at 3. -/
theorem lose_iff_body_on_head_witness :
    Event.loseShown ∈ emitted coilState (checkFood coilState) ∧
    (checkFood coilState).segCount = 3 := by
  have h := lose_iff_body_on_head coilState 3 3 (by decide) (by decide) (by decide)
  have hin := h.1.mpr ⟨2, by decide, by decide, by decide⟩
  exact ⟨hin, h.2 hin⟩

/-! ## The invariant of the game -/

section invariant

theorem oneBit_advance (d seg : Nat) (s : State) (h : OneBit (segGrid s seg)) :
    OneBit (segGrid (advance d seg s) seg) := by
  obtain ⟨c, hc, r, hr, hl⟩ := h
  rcases d with _ | _ | _ | _ | d
  · exact ⟨c, hc, _, Nat.mod_lt _ (by decide), litAt_moveUp s seg c r hl⟩
  · exact ⟨c, hc, _, Nat.mod_lt _ (by decide), litAt_moveDown s seg c r hl⟩
  · exact ⟨_, Nat.mod_lt _ (by decide), r, hr, litAt_moveLeft s seg c r hl⟩
  · exact ⟨_, Nat.mod_lt _ (by decide), r, hr, litAt_moveRight s seg c r hl⟩
  · exact ⟨c, hc, r, hr, hl⟩

theorem oneBit_congr {g h : Nat → Nat} (e : ∀ x, x < 8 → g x = h x) (hg : OneBit h) :
    OneBit g := by
  obtain ⟨c, hc, r, hr, _, _, hl⟩ := hg
  exact ⟨c, hc, r, hr, hc, hr, fun x hx => (e x hx).trans (hl x hx)⟩

/-- When `move` calls `checkFood`, every row up to index `segCount` is
one-bit, if the active segments were one-bit before. -/
theorem moved_oneBit (s : State) (h0 : 0 < s.segCount)
    (h : ∀ i, i < s.segCount → OneBit (segGrid s i)) :
    ∀ i, i ≤ s.segCount → OneBit (segGrid (moved s) i) := by
  intro i hi
  by_cases hz : i = 0
  · subst hz
    refine oneBit_congr (fun x hx => ?_)
      (oneBit_advance (intendedDir s.lastMove s.xVal s.yVal) 0 s (h 0 h0))
    show boardAt (moved s) 0 x = _
    rw [boardAt_moved s 0 x hx, if_pos rfl]; rfl
  · refine oneBit_congr (fun x hx => ?_) (h (i - 1) (by omega))
    show boardAt (moved s) i x = _
    rw [boardAt_moved s i x hx, if_neg hz, if_pos hi]; rfl

/-- What `checkFood` does to `segCount` when the head is one-bit and the
count is below the win threshold. -/
theorem checkFood_segCount (t : State) (c r : Nat) (hh : LitAt (segGrid t 0) c r)
    (hn : t.segCount < kWinCount) :
    (checkFood t).segCount < kWinCount ∧
    ((checkFood t).segCount = t.segCount ∨ (checkFood t).segCount = t.segCount + 1 ∨
      (checkFood t).segCount = 3) := by
  have e0 : checkFood t = checkCol c t :=
    checkFood_single t c hh.1 (head_zero_of_litAt t c r hh) hn
  refine ⟨e0 ▸ checkCol_lt c t, ?_⟩
  have hs := foodCheck_segCount c t
  rcases checkCol_shape c t with ⟨_, m, e⟩ | ⟨_, _, e⟩ | ⟨_, _, e⟩
  · right; right; rw [e0, e]
  · right; right; rw [e0, e]; rfl
  · rw [e0, e, hs]
    split
    · right; left; rfl
    · left; rfl

theorem inv_init (mem : Int → Nat) (rng : Nat → Nat) : Inv (initState mem rng) := by
  refine ⟨le_rfl, (by decide : 3 < kWinCount), fun i hi => ?_⟩
  have hi3 : i < 3 := hi
  interval_cases i
  · refine ⟨2, by decide, 3, by decide, by decide, by decide, fun x hx => ?_⟩
    interval_cases x <;> simp [segGrid, boardAt, initState]
  · refine ⟨3, by decide, 3, by decide, by decide, by decide, fun x hx => ?_⟩
    interval_cases x <;> simp [segGrid, boardAt, initState]
  · refine ⟨4, by decide, 3, by decide, by decide, by decide, fun x hx => ?_⟩
    interval_cases x <;> simp [segGrid, boardAt, initState]

/-- One tick keeps the invariant and changes `segCount` by 0, by +1, or to 3. -/
theorem inv_tick (s : State) (h : Inv s) (x y : Int) (rng : Nat → Nat) :
    Inv (tick x y rng s) ∧
    ((tick x y rng s).segCount = s.segCount ∨ (tick x y rng s).segCount = s.segCount + 1 ∨
      (tick x y rng s).segCount = 3) := by
  obtain ⟨h3, h40, hone⟩ := h
  generalize hs' : ({ s with xVal := x, yVal := y, rng := rng } : State) = s'
  have hseg : s'.segCount = s.segCount := by rw [← hs']
  have hone' : ∀ i, i < s'.segCount → OneBit (segGrid s' i) := by
    rw [← hs']; exact hone
  have ht : tick x y rng s = move s' := by rw [← hs']; rfl
  have hm := moved_oneBit s' (by omega) hone'
  obtain ⟨_, mc, _, _, _⟩ := moved_fields s'
  obtain ⟨c, _, r, _, hl⟩ := hm 0 (Nat.zero_le _)
  have hc := checkFood_segCount (moved s') c r hl (by rw [mc, hseg]; exact h40)
  rw [mc, hseg] at hc
  rw [ht, move_eq]
  refine ⟨⟨?_, hc.1, ?_⟩, hc.2⟩
  · rcases hc.2 with e | e | e <;> omega
  · intro i hi
    refine oneBit_congr (fun x hx => ?_) (hm i (by rcases hc.2 with e | e | e <;> omega))
    show boardAt (checkFood (moved s')) i x = _
    rw [boardAt_checkFood]; rfl

theorem inv_reachable (s : State) (h : Reachable s) : Inv s := by
  induction h with
  | init mem rng => exact inv_init mem rng
  | step s x y rng _ ih => exact (inv_tick s ih x y rng).1

end invariant

/-- C1. One-bit invariant: in every state reachable from the initial state
by any sequence of `move()` ticks, with any joystick readings and any random
draws, every active segment `board[i]`, `i < segCount`, has exactly one bit
set over its whole grid (one column byte is a power of two below 256 and the
other seven are 0); in particular the head `board[0]` does. -/
theorem one_bit_invariant (s : State) (h : Reachable s) :
    (∀ i, i < s.segCount → OneBit (segGrid s i)) ∧ OneBit (segGrid s 0) := by
  obtain ⟨h3, _, hone⟩ := inv_reachable s h
  exact ⟨hone, hone 0 (by omega)⟩

/-- C1 after two ticks from the initial state, one with the stick pushed
Left and one with the stick pulled Down. -/
theorem one_bit_invariant_witness :
    OneBit (segGrid
      (tick 500 0 (fun _ => 5) (tick 0 500 (fun _ => 1) (initState (fun _ => 7) (fun _ => 0))))
      0) :=
  (one_bit_invariant _
    (Reachable.step _ 500 0 (fun _ => 5)
      (Reachable.step _ 0 500 (fun _ => 1) (Reachable.init (fun _ => 7) (fun _ => 0))))).2

set_option maxRecDepth 100000 in
/-- C7 fails on the code: the game played Left from the initial state with
`rand()` always returning 3.  The fourth tick eats the first food and places
the next one at column 3, byte 8; the seventh tick eats that one, and the
food it places lies on the head's own cell. -/
theorem food_regenerated_on_head :
    (leftRun 6).out = [Event.serial 3] ∧
    (leftRun 7).out = [Event.serial 3, Event.serial 3] ∧
    (∀ i, i < (leftRun 7).segCount → OneBit (segGrid (leftRun 7) i)) ∧
    LitAt (segGrid (leftRun 7) 0) 3 3 ∧
    LitAt (leftRun 7).food 3 3 := by
  decide

/-! ## Column indices of the four moves -/

section indices

theorem foldlM_some {α : Type} (f : State → α → State) (g : State → α → Option State)
    (l : List α) (h : ∀ t, ∀ x ∈ l, g t x = some (f t x)) (s : State) :
    l.foldlM g s = some (l.foldl f s) := by
  induction l generalizing s with
  | nil => rfl
  | cons a l ih =>
    rw [List.foldlM_cons, h s a (List.mem_cons_self a l)]
    exact ih (fun t x hx => h t x (List.mem_cons_of_mem a hx)) (f s a)

theorem mem_cols_lt {x : Nat} (h : x ∈ cols) : x < 8 := by
  rw [cols_eq_range] at h; exact List.mem_range.mp h

theorem boardAtChecked_col (s : State) (seg x : Nat) (hx : x < 8) :
    boardAtChecked s seg x = some (boardAt s seg x) := by
  unfold boardAtChecked
  rw [if_pos (by omega)]

theorem setBoardChecked_col (s : State) (seg x v : Nat) (hx : x < 8) :
    setBoardChecked s seg x v = some (setBoard s seg x v) := by
  unfold setBoardChecked
  rw [if_pos (by omega)]

theorem moveUpChecked_eq (seg : Nat) (s : State) :
    moveUpChecked seg s = some (moveUp seg s) := by
  unfold moveUpChecked moveUp
  apply foldlM_some
  intro t x hx
  have h8 := mem_cols_lt hx
  rw [boardAtChecked_col t seg x h8]
  show (if boardAt t seg x = 128 then _ else _) = _
  split
  · rw [setBoardChecked_col t seg x 1 h8]
  · rw [setBoardChecked_col t seg x _ h8]

theorem moveDownChecked_eq (seg : Nat) (s : State) :
    moveDownChecked seg s = some (moveDown seg s) := by
  unfold moveDownChecked moveDown
  apply foldlM_some
  intro t x hx
  have h8 := mem_cols_lt hx
  rw [boardAtChecked_col t seg x h8]
  show (if boardAt t seg x = 1 then _ else _) = _
  split
  · rw [setBoardChecked_col t seg x 128 h8]
  · rw [setBoardChecked_col t seg x _ h8]

theorem moveLeftChecked_eq (seg : Nat) (s : State) : moveLeftChecked seg s = none := by
  simp [moveLeftChecked, cols, boardAtChecked, setBoardChecked, List.foldlM]

theorem moveRightChecked_eq (seg : Nat) (s : State) : moveRightChecked seg s = none := by
  simp [moveRightChecked, colsDown, boardAtChecked, setBoardChecked, List.foldlM]

end indices

/-- C11 fails on the code.  With an index check on every column access,
`moveUp` and `moveDown` run through and give the result of the unchecked
routine, but `moveLeft` and `moveRight` take the out-of-range branch for
every segment and every grid: `moveLeft` reads `board[seg][x + 1]` with
`x = 7`, column 8, and `moveRight` reads `board[seg][x - 1]` with `x = 0`,
column -1. -/
theorem left_right_leave_columns (seg : Nat) (s : State) :
    moveUpChecked seg s = some (moveUp seg s) ∧
    moveDownChecked seg s = some (moveDown seg s) ∧
    moveLeftChecked seg s = none ∧
    moveRightChecked seg s = none ∧
    boardAtChecked s seg ((7 : Nat) + 1) = none ∧
    boardAtChecked s seg ((0 : Nat) - 1) = none :=
  ⟨moveUpChecked_eq seg s, moveDownChecked_eq seg s, moveLeftChecked_eq seg s,
    moveRightChecked_eq seg s, by simp [boardAtChecked], by simp [boardAtChecked]⟩

section input

theorem readInput_fields (x y : Int) (s : State) :
    (readInput x y s).board = s.board ∧ (readInput x y s).food = s.food ∧
    (readInput x y s).segCount = s.segCount ∧ (readInput x y s).lastMove = s.lastMove ∧
    (readInput x y s).rng = s.rng ∧ (readInput x y s).out = s.out := by
  simp only [readInput]
  split <;> exact ⟨rfl, rfl, rfl, rfl, rfl, rfl⟩

theorem readInput_vals (x y : Int) (s : State) :
    ((readInput x y s).xVal = if (x - 500).natAbs > (y - 500).natAbs then x else 500) ∧
    ((readInput x y s).yVal = if (x - 500).natAbs > (y - 500).natAbs then 500 else y) := by
  by_cases h : (x - 500).natAbs > (y - 500).natAbs
  · simp [readInput, if_pos h]
  · simp [readInput, if_neg h]

end input

/-- C13. Input normalization: for all raw readings `x`, `y` the loop keeps
the axis that lies further from 500 and sets the other one to exactly 500:
`x` is kept, and `yVal = 500`, if and only if `|x - 500| > |y - 500|`; on a
tie and otherwise `y` is kept and `xVal = 500`.  Hence one of `xVal`, `yVal`
is 500 afterwards, and no two of the four intent conditions `yVal > 600`,
`yVal < 400`, `xVal < 400`, `xVal > 600` hold together.  The rest of the
game state is untouched. -/
theorem input_normalized (x y : Int) (s : State) :
    ((x - 500).natAbs > (y - 500).natAbs →
      (readInput x y s).xVal = x ∧ (readInput x y s).yVal = 500) ∧
    (¬ (x - 500).natAbs > (y - 500).natAbs →
      (readInput x y s).xVal = 500 ∧ (readInput x y s).yVal = y) ∧
    ((readInput x y s).xVal = 500 ∨ (readInput x y s).yVal = 500) ∧
    ¬ ((readInput x y s).yVal > 600 ∧ (readInput x y s).yVal < 400) ∧
    ¬ ((readInput x y s).yVal > 600 ∧ (readInput x y s).xVal < 400) ∧
    ¬ ((readInput x y s).yVal > 600 ∧ (readInput x y s).xVal > 600) ∧
    ¬ ((readInput x y s).yVal < 400 ∧ (readInput x y s).xVal < 400) ∧
    ¬ ((readInput x y s).yVal < 400 ∧ (readInput x y s).xVal > 600) ∧
    ¬ ((readInput x y s).xVal < 400 ∧ (readInput x y s).xVal > 600) ∧
    (readInput x y s).board = s.board ∧ (readInput x y s).food = s.food ∧
    (readInput x y s).segCount = s.segCount ∧ (readInput x y s).lastMove = s.lastMove := by
  obtain ⟨hx, hy⟩ := readInput_vals x y s
  obtain ⟨f1, f2, f3, f4, _, _⟩ := readInput_fields x y s
  rw [hx, hy]
  refine ⟨?_, ?_, ?_, ?_, ?_, ?_, ?_, ?_, ?_, f1, f2, f3, f4⟩
  · intro h; rw [if_pos h, if_pos h]; exact ⟨rfl, rfl⟩
  · intro h; rw [if_neg h, if_neg h]; exact ⟨rfl, rfl⟩
  all_goals split <;> omega

/-- C13 on a stick pushed mostly left and a little up (`x = 100`, `y = 650`)
and on a tie (`x = 700`, `y = 300`): the first keeps `x`, the second `y`. -/
theorem input_normalized_witness :
    ((readInput 100 650 cornerState).xVal = 100 ∧ (readInput 100 650 cornerState).yVal = 500) ∧
    ((readInput 700 300 cornerState).xVal = 500 ∧ (readInput 700 300 cornerState).yVal = 300) :=
  ⟨(input_normalized 100 650 cornerState).1 (by decide),
   (input_normalized 700 300 cornerState).2.1 (by decide)⟩

/-- C15. Reset frame: `lose()` and `win()` change the game state only by
setting `segCount` to 3; every byte of `board` (rows at index 3 and above
included), the food grid, `lastMove`, the readings and the random stream are
what they were before the call, and the only output is the `X` or the
smile. -/
theorem reset_frame (s : State) :
    ((lose s).segCount = 3 ∧ (lose s).board = s.board ∧ (lose s).food = s.food ∧
      (lose s).lastMove = s.lastMove ∧ (lose s).xVal = s.xVal ∧ (lose s).yVal = s.yVal ∧
      (lose s).rng = s.rng ∧ emitted s (lose s) = [Event.loseShown]) ∧
    ((win s).segCount = 3 ∧ (win s).board = s.board ∧ (win s).food = s.food ∧
      (win s).lastMove = s.lastMove ∧ (win s).xVal = s.xVal ∧ (win s).yVal = s.yVal ∧
      (win s).rng = s.rng ∧ emitted s (win s) = [Event.winShown]) :=
  ⟨⟨rfl, rfl, rfl, rfl, rfl, rfl, rfl, emitted_of_append s _ _ rfl⟩,
   ⟨rfl, rfl, rfl, rfl, rfl, rfl, rfl, emitted_of_append s _ _ rfl⟩⟩

/-! ## The loop: counter and frame composition -/

section looping

theorem loopPass_moveCount (x y : Int) (rng : Nat → Nat) (l : Loop) :
    (loopPass x y rng l).moveCount = (if l.moveCount > 50 then 0 else l.moveCount) + 1 := rfl

theorem loopPass_game (x y : Int) (rng : Nat → Nat) (l : Loop) :
    (loopPass x y rng l).game =
      if l.moveCount > 50 then move { readInput x y l.game with rng := rng }
      else readInput x y l.game := rfl

theorem passes_succ (inp : Nat → Int × Int × (Nat → Nat)) (n : Nat) (l : Loop) :
    passes inp (n + 1) l =
      loopPass (inp n).1 (inp n).2.1 (inp n).2.2 (passes inp n l) := rfl

/-- After a pass that moves, the counter reads `k` after `k` passes, up to 51. -/
theorem passes_count (inp : Nat → Int × Int × (Nat → Nat)) (l : Loop)
    (h : l.moveCount > 50) (k : Nat) (h1 : 1 ≤ k) (h2 : k ≤ 51) :
    (passes inp k l).moveCount = k := by
  induction k with
  | zero => omega
  | succ k ih =>
    rw [passes_succ, loopPass_moveCount]
    by_cases hk : k = 0
    · subst hk
      show (if l.moveCount > 50 then 0 else l.moveCount) + 1 = 1
      rw [if_pos h]
    · rw [ih (by omega) (by omega), if_neg (by omega)]

/-- From the start of `loop()`, the counter reads `k` after `k` passes, up to 51. -/
theorem passes_count_init (inp : Nat → Int × Int × (Nat → Nat)) (mem : Int → Nat)
    (rng : Nat → Nat) (k : Nat) (h2 : k ≤ 51) :
    (passes inp k (loopInit mem rng)).moveCount = k := by
  induction k with
  | zero => rfl
  | succ k ih =>
    rw [passes_succ, loopPass_moveCount, ih (by omega), if_neg (by omega)]

theorem fold_or (b : Nat → Nat) (m : Nat) (d : Nat → Nat) :
    (List.range m).foldl
      (fun (d2 : Nat → Nat) (x : Nat) => fun k => if k = x then d2 x ||| b x else d2 k) d
    = fun k => if k < m then d k ||| b k else d k := by
  induction m with
  | zero => funext k; simp
  | succ m ih =>
    rw [foldl_range_succ, ih]
    funext k
    beta_reduce
    by_cases hk : k = m
    · subst hk; rw [if_pos rfl, if_neg (by omega), if_pos (by omega)]
    · rw [if_neg hk]
      by_cases h1 : k < m
      · rw [if_pos h1, if_pos (by omega)]
      · rw [if_neg h1, if_neg (by omega)]

/-- Column by column, the nested composition loops compute the OR over the
segments, starting from what the buffer held. -/
theorem compose_eq (s : State) (d : Nat → Nat) :
    compose s d = fun (k : Nat) =>
      if k < 8 then
        (List.range s.segCount).foldl (fun (a : Nat) (seg : Nat) => a ||| boardAt s seg k) (d k)
      else d k := by
  unfold compose
  generalize s.segCount = n
  induction n with
  | zero => funext k; simp
  | succ n ih =>
    rw [foldl_range_succ, ih, cols_eq_range, fold_or (fun (x : Nat) => boardAt s n x) 8]
    funext k
    beta_reduce
    by_cases hk : k < 8
    · rw [if_pos hk, if_pos hk, if_pos hk, foldl_range_succ]
    · rw [if_neg hk, if_neg hk, if_neg hk]

theorem map_compose_zero (s : State) :
    cols.map (compose s (fun _ => 0)) = cols.map (orAll s) := by
  apply List.map_congr_left
  intro k hk
  rw [compose_eq]
  beta_reduce
  rw [if_pos (mem_cols_lt hk)]
  rfl

theorem reachable_buffer (l : Loop) (h : LoopReachable l) : l.boardDisplay = fun _ => 0 := by
  cases h <;> rfl

theorem loopPass_shown (x y : Int) (rng : Nat → Nat) (l : Loop) :
    (loopPass x y rng l).shown =
      l.shown ++ [cols.map (compose (loopPass x y rng l).game l.boardDisplay),
        cols.map (loopPass x y rng l).game.food] := rfl

theorem compose_congr (s t : State) (hb : t.board = s.board) (hn : t.segCount = s.segCount)
    (d : Nat → Nat) : compose t d = compose s d := by
  unfold compose boardAt
  rw [hb, hn]

theorem orAll_congr (s t : State) (hb : t.board = s.board) (hn : t.segCount = s.segCount) :
    orAll t = orAll s := by
  funext x
  unfold orAll boardAt
  rw [hb, hn]

end looping

/-- C12. Tick cadence.  The counter starts at 0, a pass calls `move()` exactly
if it finds `moveCount > 50`, and then restarts the count.  After a pass that
calls `move()`, the next 50 passes do not call it (they only read the input)
and the pass after those does: two consecutive calls of `move()` are exactly
51 passes apart.  From the start of `loop()` the first call is in pass 51,
counting from 0. -/
theorem tick_cadence (inp : Nat → Int × Int × (Nat → Nat)) (l : Loop)
    (h : l.moveCount > 50) :
    (passes inp 1 l).game =
      move { readInput (inp 0).1 (inp 0).2.1 l.game with rng := (inp 0).2.2 } ∧
    (∀ k, 1 ≤ k → k ≤ 50 →
      ¬ (passes inp k l).moveCount > 50 ∧
      (passes inp (k + 1) l).game = readInput (inp k).1 (inp k).2.1 (passes inp k l).game) ∧
    (passes inp 51 l).moveCount > 50 ∧
    (passes inp 52 l).game =
      move { readInput (inp 51).1 (inp 51).2.1 (passes inp 51 l).game with
        rng := (inp 51).2.2 } ∧
    (∀ (mem : Int → Nat) (rng : Nat → Nat),
      (∀ k, k ≤ 50 → ¬ (passes inp k (loopInit mem rng)).moveCount > 50) ∧
      (passes inp 51 (loopInit mem rng)).moveCount > 50) := by
  have h51 : (passes inp 51 l).moveCount = 51 := passes_count inp l h 51 (by omega) le_rfl
  refine ⟨?_, ?_, by omega, ?_, ?_⟩
  · show (loopPass _ _ _ l).game = _
    rw [loopPass_game, if_pos h]
  · intro k h1 h2
    have hk := passes_count inp l h k h1 (by omega)
    refine ⟨by omega, ?_⟩
    rw [passes_succ, loopPass_game, if_neg (by omega)]
  · rw [passes_succ, loopPass_game, if_pos (by omega)]
  · intro mem rng
    refine ⟨fun k hk => ?_, ?_⟩
    · rw [passes_count_init inp mem rng k (by omega)]; omega
    · rw [passes_count_init inp mem rng 51 le_rfl]; omega

set_option maxRecDepth 100000 in
/-- C12 from the loop state after the first 51 passes of the game with the
stick at rest, whose pass calls `move()`: the counter reads 51 again after
51 more passes. -/
theorem tick_cadence_witness :
    (passes (fun _ => (500, 500, fun _ => 0)) 51
      (passes (fun _ => (500, 500, fun _ => 0)) 51
        (loopInit (fun _ => 0) (fun _ => 0)))).moveCount > 50 :=
  (tick_cadence (fun _ => (500, 500, fun _ => 0))
    (passes (fun _ => (500, 500, fun _ => 0)) 51 (loopInit (fun _ => 0) (fun _ => 0)))
    (by decide)).2.2.1

/-- C17. Render composition.  In every pass of the loop the frame scanned
out for the snake holds, in each column `x` of `0 .. 7`, the bitwise OR of
`board[seg][x]` over all `seg < segCount`, and `boardDisplay` is all zero
again when the pass ends.  Hence a following pass that does not call
`move()` scans out the same snake frame once more. -/
theorem render_composition (l : Loop) (h : LoopReachable l) (x y : Int)
    (rng : Nat → Nat) :
    (loopPass x y rng l).shown =
      l.shown ++ [cols.map (orAll (loopPass x y rng l).game),
        cols.map (loopPass x y rng l).game.food] ∧
    (∀ k, (loopPass x y rng l).boardDisplay k = 0) ∧
    (∀ (x2 y2 : Int) (rng2 : Nat → Nat), ¬ (loopPass x y rng l).moveCount > 50 →
      (loopPass x2 y2 rng2 (loopPass x y rng l)).shown =
        l.shown ++ [cols.map (orAll (loopPass x y rng l).game),
          cols.map (loopPass x y rng l).game.food,
          cols.map (orAll (loopPass x y rng l).game),
          cols.map (loopPass x y rng l).game.food]) := by
  have e1 : (loopPass x y rng l).shown =
      l.shown ++ [cols.map (orAll (loopPass x y rng l).game),
        cols.map (loopPass x y rng l).game.food] := by
    rw [loopPass_shown, reachable_buffer l h, map_compose_zero]
  refine ⟨e1, fun _ => rfl, ?_⟩
  intro x2 y2 rng2 hno
  have hg : (loopPass x2 y2 rng2 (loopPass x y rng l)).game =
      readInput x2 y2 (loopPass x y rng l).game := by
    rw [loopPass_game, if_neg hno]
  obtain ⟨f1, f2, f3, _⟩ := readInput_fields x2 y2 (loopPass x y rng l).game
  rw [loopPass_shown, hg, e1, f2]
  show _ ++ [cols.map (compose _ (fun _ => 0)), _] = _
  rw [compose_congr _ _ f1 f3 _, map_compose_zero, List.append_assoc]
  rfl

/-- C17 on the first two passes of the game: both scan out the three initial
segments in columns 2, 3 and 4, and the food in column 6. -/
theorem render_composition_witness :
    (loopPass 500 500 (fun _ => 0)
      (loopPass 500 500 (fun _ => 0) (loopInit (fun _ => 0) (fun _ => 0)))).shown =
      [[0, 0, 8, 8, 8, 0, 0, 0], [0, 0, 0, 0, 0, 0, 8, 0],
       [0, 0, 8, 8, 8, 0, 0, 0], [0, 0, 0, 0, 0, 0, 8, 0]] :=
  ((render_composition (loopInit (fun _ => 0) (fun _ => 0))
    (LoopReachable.init _ _) 500 500 (fun _ => 0)).2.2 500 500 (fun _ => 0)
    (by decide)).trans (by decide)

/-! ## The food grid -/

section foodgrid

theorem posArray_getD (r : Nat) (h : r < 8) : posArray.getD r 0 = 2 ^ r := by
  interval_cases r <;> rfl

/-- Clearing the food and placing it lights exactly the cell chosen by the
next two draws. -/
theorem placeFood_litAt (u : State) :
    LitAt (placeFood (clearFood u)).food (u.rng 1 % 8) (u.rng 0 % 8) := by
  refine ⟨Nat.mod_lt _ (by decide), Nat.mod_lt _ (by decide), fun x _ => ?_⟩
  show (if x = u.rng 1 % 8 then posArray.getD (u.rng 0 % 8) 0 else 0) = _
  rw [posArray_getD _ (Nat.mod_lt _ (by decide))]

theorem placeFood_oneBit (u : State) : OneBit (placeFood (clearFood u)).food :=
  ⟨_, Nat.mod_lt _ (by decide), _, Nat.mod_lt _ (by decide), placeFood_litAt u⟩

theorem reroll_oneBit (s : State) (h : OneBit s.food) : OneBit (reroll s).food := by
  unfold reroll
  refine foldl_inv (fun (t : State) => OneBit t.food) _ ?_ _ _ h
  intro t x ht
  refine foldl_inv (fun (t : State) => OneBit t.food) _ ?_ _ _ ht
  intro u seg hu
  split
  · exact placeFood_oneBit u
  · exact hu

theorem eat_oneBit (s : State) : OneBit (eat s).food := by
  have h : OneBit (placeFood (announce (clearFood s))).food :=
    placeFood_oneBit (announce s)
  have k := reroll_oneBit _ h
  unfold eat
  generalize reroll (placeFood (announce (clearFood s))) = v at k ⊢
  exact k

theorem checkCol_food_oneBit (x : Nat) (s : State) (h : OneBit s.food) :
    OneBit (checkCol x s).food := by
  unfold checkCol
  rw [(tail_spec x _).2.1]
  unfold foodCheck
  split
  · exact eat_oneBit s
  · exact h

theorem checkFood_food_oneBit (s : State) (h : OneBit s.food) :
    OneBit (checkFood s).food := by
  unfold checkFood
  refine foldl_inv (fun (t : State) => OneBit t.food) _ ?_ _ _ h
  intro t x ht
  exact checkCol_food_oneBit x t ht

theorem tick_food_oneBit (s : State) (h : OneBit s.food) (x y : Int) (rng : Nat → Nat) :
    OneBit (tick x y rng s).food := by
  unfold tick
  rw [move_eq]
  apply checkFood_food_oneBit
  rw [(moved_fields _).1]
  exact h

theorem food_reachable (s : State) (h : Reachable s) : OneBit s.food := by
  induction h with
  | init mem rng =>
    exact ⟨6, by decide, 3, by decide, by decide, by decide, fun _ _ => rfl⟩
  | step s x y rng _ ih => exact tick_food_oneBit s ih x y rng

end foodgrid

/-- C16. Food one-bit invariant: in every state reachable from the initial
state, with any readings and any random draws, the food grid has exactly one
bit set.  Every placement in `checkFood()` clears all eight column bytes and
then sets the column `rand() % 8` to the power of two
`posArray[rand() % 8]`, where the first of the two draws picks the byte and
the second the column; and the food branch as a whole, re-rolls included,
ends with a one-bit food grid. -/
theorem food_one_bit (s : State) (h : Reachable s) :
    OneBit s.food ∧
    (∀ (u : State) (x : Nat), (clearFood u).food x = 0) ∧
    (∀ u : State, LitAt (placeFood (clearFood u)).food (u.rng 1 % 8) (u.rng 0 % 8)) ∧
    (∀ u : State, OneBit (eat u).food) :=
  ⟨food_reachable s h, fun _ _ => rfl, placeFood_litAt, eat_oneBit⟩

/-- C16 after the seventh tick of the game played Left, the second one in
which the food is regenerated. -/
theorem food_one_bit_witness : OneBit (leftRun 7).food :=
  (food_one_bit (leftRun 7)
    (Reachable.step _ _ _ _ (Reachable.step _ _ _ _ (Reachable.step _ _ _ _
      (Reachable.step _ _ _ _ (Reachable.step _ _ _ _ (Reachable.step _ _ _ _
        (Reachable.step _ _ _ _ (Reachable.init _ _))))))))).1

/-! ## Growth -/

section growth

/-- As long as neither `lose()` nor `win()` has run, `segCount` has grown by
the number of times the food branch ran. -/
theorem checkFood_count (s : State) :
    ∃ l, (checkFood s).out = s.out ++ l ∧
      (Event.loseShown ∉ l → Event.winShown ∉ l →
        (checkFood s).segCount = s.segCount + l.countP isSerial) := by
  unfold checkFood
  refine foldl_inv
    (fun (t : State) => ∃ l, t.out = s.out ++ l ∧
      (Event.loseShown ∉ l → Event.winShown ∉ l →
        t.segCount = s.segCount + l.countP isSerial)) _ ?_ _ _ ⟨[], by simp, by simp⟩
  intro t x ⟨l, hl, hc⟩
  have ho := foodCheck_out x t
  have hs := foodCheck_segCount x t
  rcases checkCol_shape x t with ⟨_, m, e⟩ | ⟨_, _, e⟩ | ⟨_, _, e⟩
  · refine ⟨l ++ ((if foodHit t x then [Event.serial (t.rng 0)] else []) ++
      List.replicate (m + 1) Event.loseShown), ?_, ?_⟩
    · rw [e]
      show (foodCheck x t).out ++ _ = _
      rw [ho, hl]; simp
    · intro h; exact absurd (by simp [List.replicate_succ]) h
  · refine ⟨l ++ ((if foodHit t x then [Event.serial (t.rng 0)] else []) ++
      [Event.winShown]), ?_, ?_⟩
    · rw [e]
      show (foodCheck x t).out ++ _ = _
      rw [ho, hl]; simp
    · intro _ h; exact absurd (by simp) h
  · refine ⟨l ++ (if foodHit t x then [Event.serial (t.rng 0)] else []), ?_, ?_⟩
    · rw [e, ho, hl]; simp
    · intro h1 h2
      have hc' := hc (fun h => h1 (List.mem_append_left _ h))
        (fun h => h2 (List.mem_append_left _ h))
      rw [e, hs, List.countP_append, hc']
      split <;> simp [isSerial]
      omega

end growth

/-- C14, as the code has it.  In a tick whose only output is the serial print
of the food branch (food eaten, neither `lose()` nor `win()`), `segCount`
goes from `n` to `n + 1`, and the appended segment `board[n]` holds what the
last segment `board[n - 1]` held before the tick; the last segment itself has
by then taken over the grid of `board[n - 2]`. -/
theorem growth_appends_old_tail (s : State) (k : Nat) (h1 : 1 ≤ s.segCount)
    (he : emitted s (move s) = [Event.serial k]) :
    (move s).segCount = s.segCount + 1 ∧
    SameGrid (segGrid (move s) s.segCount) (segGrid s (s.segCount - 1)) ∧
    (2 ≤ s.segCount →
      SameGrid (segGrid (move s) (s.segCount - 1)) (segGrid s (s.segCount - 2))) := by
  obtain ⟨_, mc, _, mo, _⟩ := moved_fields s
  have rows : ∀ i, 1 ≤ i → i ≤ s.segCount →
      SameGrid (segGrid (move s) i) (segGrid s (i - 1)) := by
    intro i hi1 hi2 x hx
    show boardAt (move s) i x = boardAt s (i - 1) x
    rw [move_eq, boardAt_checkFood, boardAt_moved s i x hx, if_neg (by omega), if_pos hi2]
  refine ⟨?_, rows s.segCount h1 le_rfl, fun h2 => ?_⟩
  · obtain ⟨l, hl, hc⟩ := checkFood_count (moved s)
    rw [← move_eq, mo] at hl
    have el : l = [Event.serial k] := by
      rw [← he]; exact (emitted_of_append s _ l hl).symm
    rw [← move_eq, mc, el] at hc
    exact hc (by simp) (by simp)
  · have := rows (s.segCount - 1) (by omega) (by omega)
    rwa [show s.segCount - 1 - 1 = s.segCount - 2 by omega] at this

set_option maxRecDepth 100000 in
/-- C14 on the fourth tick of the game played Left, which eats the first
food: the count goes from 3 to 4 and segment 3 takes the cell that segment 2
held before the tick. -/
theorem growth_appends_old_tail_witness :
    (move fourthTick).segCount = fourthTick.segCount + 1 ∧
    SameGrid (segGrid (move fourthTick) fourthTick.segCount)
      (segGrid fourthTick (fourthTick.segCount - 1)) := by
  have h := growth_appends_old_tail fourthTick 3 (by decide) (by decide)
  exact ⟨h.1, h.2.1⟩

set_option maxRecDepth 100000 in
/-- C14 fails as stated: in the fourth tick of the game played Left the food
is eaten and the count goes from 3 to 4 without `lose()` or `win()`, but the
appended segment 3 and the last segment 2 hold different grids after the
body shift (columns 1 and 0 of the row with byte 8). -/
theorem growth_not_copy_of_last :
    fourthTick.segCount = 3 ∧ (move fourthTick).segCount = 4 ∧
    emitted fourthTick (move fourthTick) = [Event.serial 3] ∧
    LitAt (segGrid (move fourthTick) 3) 1 3 ∧ LitAt (segGrid (move fourthTick) 2) 0 3 ∧
    ¬ SameGrid (segGrid (move fourthTick) 3) (segGrid (move fourthTick) 2) := by
  decide

set_option maxRecDepth 100000 in
/-- C18 fails on the code: in `rerollState` the three segments are one-bit
and the first candidate, column 1 and byte 2, is on none of their cells, yet
the food ends in column 5 with byte 32, the cell of the later draws. -/
theorem reroll_without_overlap :
    (∀ i, i < 3 → OneBit (segGrid rerollState i)) ∧
    rerollState.segCount = 3 ∧
    LitAt (placeFood (announce (clearFood rerollState))).food 1 1 ∧
    (∀ i, i < 3 → ¬ SameGrid (segGrid rerollState i)
      (placeFood (announce (clearFood rerollState))).food) ∧
    emitted rerollState (checkFood rerollState) = [Event.serial 1] ∧
    LitAt (checkFood rerollState).food 5 5 := by
  decide

/-! ## Contiguity of the snake -/

section contiguity

theorem litAt_congr {g h : Nat → Nat} {c r : Nat} (e : SameGrid g h) (hl : LitAt h c r) :
    LitAt g c r :=
  ⟨hl.1, hl.2.1, fun x hx => (e x hx).trans (hl.2.2 x hx)⟩

theorem adjacent_congr {g h g1 h1 : Nat → Nat} (eg : SameGrid g g1) (eh : SameGrid h h1)
    (a : Adjacent g1 h1) : Adjacent g h := by
  obtain ⟨c, hc, r, hr, hg, hh⟩ := a
  refine ⟨c, hc, r, hr, litAt_congr eg hg, ?_⟩
  rcases hh with hh | hh | hh | hh
  · exact Or.inl (litAt_congr eh hh)
  · exact Or.inr (Or.inl (litAt_congr eh hh))
  · exact Or.inr (Or.inr (Or.inl (litAt_congr eh hh)))
  · exact Or.inr (Or.inr (Or.inr (litAt_congr eh hh)))

theorem litAt_cast {g : Nat → Nat} {c r c1 r1 : Nat} (h : LitAt g c r) (hc : c = c1)
    (hr : r = r1) : LitAt g c1 r1 := by
  subst hc; subst hr; exact h

/-- A segment moved in one of the four directions is a neighbour of the cell
it left. -/
theorem adjacent_advance (d seg : Nat) (s : State) (hd : d ≤ 3)
    (h : OneBit (segGrid s seg)) :
    Adjacent (segGrid (advance d seg s) seg) (segGrid s seg) := by
  obtain ⟨c, hc, r, hr, hl⟩ := h
  have m8 : ∀ n : Nat, n % 8 < 8 := fun n => Nat.mod_lt _ (by decide)
  rcases d with _ | _ | _ | _ | d
  · exact ⟨c, hc, _, m8 _, litAt_moveUp s seg c r hl,
      Or.inr (Or.inl (litAt_cast hl rfl (by omega)))⟩
  · exact ⟨c, hc, _, m8 _, litAt_moveDown s seg c r hl,
      Or.inl (litAt_cast hl rfl (by omega))⟩
  · exact ⟨_, m8 _, r, hr, litAt_moveLeft s seg c r hl,
      Or.inr (Or.inr (Or.inl (litAt_cast hl (by omega) rfl)))⟩
  · exact ⟨_, m8 _, r, hr, litAt_moveRight s seg c r hl,
      Or.inr (Or.inr (Or.inr (litAt_cast hl (by omega) rfl)))⟩
  · omega

theorem intendedDir_le (l : Nat) (x y : Int) (h : l ≤ 3) : intendedDir l x y ≤ 3 := by
  unfold intendedDir
  split_ifs <;> omega

theorem chain_init (mem : Int → Nat) (rng : Nat → Nat) : Chain (initState mem rng) := by
  refine ⟨inv_init mem rng, Nat.zero_le _, fun i hi => ?_⟩
  have hi3 : i + 1 < 3 := hi
  have lit : ∀ k, k < 3 → LitAt (segGrid (initState mem rng) k) (k + 2) 3 := by
    intro k hk
    refine ⟨by omega, by decide, fun x hx => ?_⟩
    interval_cases k <;> interval_cases x <;> simp [segGrid, boardAt, initState]
  refine ⟨i + 2, by omega, 3, by decide, lit i (by omega), Or.inr (Or.inr (Or.inl ?_))⟩
  exact litAt_cast (lit (i + 1) (by omega)) (by omega) rfl

theorem chain_tick (s : State) (h : Chain s) (x y : Int) (rng : Nat → Nat) :
    Chain (tick x y rng s) := by
  obtain ⟨hinv, hlm, hadj⟩ := h
  obtain ⟨hinv', hcount⟩ := inv_tick s hinv x y rng
  obtain ⟨h3, _, hone⟩ := hinv
  generalize hs' : ({ s with xVal := x, yVal := y, rng := rng } : State) = s' at *
  have hseg : s'.segCount = s.segCount := by rw [← hs']
  have hlm' : s'.lastMove = s.lastMove := by rw [← hs']
  have hgrid : ∀ i, segGrid s' i = segGrid s i := by intro i; rw [← hs']; rfl
  have ht : tick x y rng s = move s' := by rw [← hs']; rfl
  have hd : intendedDir s'.lastMove s'.xVal s'.yVal ≤ 3 :=
    intendedDir_le _ _ _ (by rw [hlm']; exact hlm)
  have rows : ∀ (i k : Nat), k < 8 → boardAt (move s') i k = boardAt (moved s') i k := by
    intro i k _; rw [move_eq, boardAt_checkFood]
  rw [ht] at hinv' hcount ⊢
  refine ⟨hinv', ?_, fun i hi => ?_⟩
  · rw [move_eq, checkFood_lastMove, (moved_fields s').2.2.2.2]; exact hd
  · have hi' : i + 1 ≤ s'.segCount := by rw [hseg]; rcases hcount with e | e | e <;> omega
    by_cases hz : i = 0
    · subst hz
      refine adjacent_congr (fun k hk => ?_) (fun k hk => ?_)
        (adjacent_advance _ 0 s' hd (by rw [hgrid]; exact hone 0 (by omega)))
      · show boardAt (move s') 0 k = _
        rw [rows 0 k hk, boardAt_moved s' 0 k hk, if_pos rfl]; rfl
      · show boardAt (move s') (0 + 1) k = _
        rw [rows _ k hk, boardAt_moved s' (0 + 1) k hk, if_neg (by omega), if_pos hi']; rfl
    · have ha := hadj (i - 1) (by omega)
      rw [show i - 1 + 1 = i by omega, ← hgrid, ← hgrid] at ha
      refine adjacent_congr (fun k hk => ?_) (fun k hk => ?_) ha
      · show boardAt (move s') i k = _
        rw [rows i k hk, boardAt_moved s' i k hk, if_neg hz, if_pos (by omega)]; rfl
      · show boardAt (move s') (i + 1) k = _
        rw [rows _ k hk, boardAt_moved s' (i + 1) k hk, if_neg (by omega), if_pos hi']; rfl

theorem chain_reachable (s : State) (h : Reachable s) : Chain s := by
  induction h with
  | init mem rng => exact chain_init mem rng
  | step s x y rng _ ih => exact chain_tick s ih x y rng

/-- With a one-bit head at `(c, r)`, one-bit rows and `segCount` below the
win threshold, a segment `i` in `1 .. segCount - 1` with the head's grid makes
`checkFood` call `lose()` and end with `segCount = 3`. -/
theorem lose_hit_of_same (s : State) (c r : Nat)
    (hone : ∀ i, i ≤ s.segCount → OneBit (segGrid s i))
    (hh : LitAt (segGrid s 0) c r) (hn : s.segCount < kWinCount) (i : Nat) (h1 : 1 ≤ i)
    (h2 : i < s.segCount) (hs : SameGrid (segGrid s i) (segGrid s 0)) :
    Event.loseShown ∈ emitted s (checkFood s) ∧ (checkFood s).segCount = 3 := by
  have e0 : checkFood s = checkCol c s :=
    checkFood_single s c hh.1 (head_zero_of_litAt s c r hh) hn
  have hsc := foodCheck_segCount c s
  have ho := foodCheck_out c s
  have hit : bodyHit s c i :=
    (bodyHit_iff_sameGrid s c r i hh (hone i (by omega))).mpr hs
  have hlt : i < (foodCheck c s).segCount := by
    rw [hsc]; split <;> omega
  rcases checkCol_shape c s with ⟨_, m, e⟩ | ⟨hno, _⟩ | ⟨hno, _⟩
  · have eout : (checkFood s).out = s.out ++
        ((if foodHit s c then [Event.serial (s.rng 0)] else []) ++
          List.replicate (m + 1) Event.loseShown) := by
      rw [e0, e]
      show (foodCheck c s).out ++ _ = _
      rw [ho, List.append_assoc]
    refine ⟨?_, by rw [e0, e]⟩
    rw [mem_emitted_of_append s _ _ eout]
    simp [List.replicate_succ]
  · exact absurd ⟨i, h1, hlt, hit⟩ hno
  · exact absurd ⟨i, h1, hlt, hit⟩ hno

end contiguity

/-- C19. Snake contiguity: in every state reachable from the initial state
at a tick boundary, the cells of segment `i` and segment `i + 1` are
neighbours on the grid with wraparound, for every `i` with
`i + 1 < segCount`.  The induction step covers every tick, with or without
growth and with or without a reset of `segCount` by `lose()` or `win()`. -/
theorem snake_contiguous (s : State) (h : Reachable s) :
    ∀ i, i + 1 < s.segCount → Adjacent (segGrid s i) (segGrid s (i + 1)) :=
  (chain_reachable s h).2.2

/-- C19 after the first tick with the stick pushed Right, the tick in which
`lose()` runs: head and segment 1 are neighbours. -/
theorem snake_contiguous_witness :
    Adjacent (segGrid (tick 1000 500 (fun _ => 0) (initState (fun _ => 0) (fun _ => 0))) 0)
      (segGrid (tick 1000 500 (fun _ => 0) (initState (fun _ => 0) (fun _ => 0))) 1) :=
  snake_contiguous _ (Reachable.step _ 1000 500 (fun _ => 0) (Reachable.init _ _)) 0
    (by decide)

/-- C20. Self-collision on the first tick: from the initial state, a first
`move()` with a Right intent (`xVal > 600`, `yVal = 500`) is accepted,
`lastMove` becomes Right, the head moves to column 3 of the row with byte 8,
the cell that segment 2 holds after the body shift, and `lose()` is invoked;
the tick ends with `segCount = 3`.  The guard on `lastMove` does not keep the
head off its own body in the initial layout. -/
theorem first_tick_right_loses (mem : Int → Nat) (rng0 rng : Nat → Nat) (x : Int)
    (hx : x > 600) :
    (tick x 500 rng (initState mem rng0)).lastMove = 3 ∧
    LitAt (segGrid (tick x 500 rng (initState mem rng0)) 0) 3 3 ∧
    LitAt (segGrid (tick x 500 rng (initState mem rng0)) 2) 3 3 ∧
    Event.loseShown ∈ emitted (initState mem rng0) (tick x 500 rng (initState mem rng0)) ∧
    (tick x 500 rng (initState mem rng0)).segCount = 3 := by
  generalize hs' : ({ initState mem rng0 with xVal := x, yVal := 500, rng := rng } : State)
    = s'
  have ht : tick x 500 rng (initState mem rng0) = move s' := by rw [← hs']; rfl
  have hseg : s'.segCount = 3 := by rw [← hs']; rfl
  have hout : s'.out = (initState mem rng0).out := by rw [← hs']
  have hgrid : ∀ i, segGrid s' i = segGrid (initState mem rng0) i := by
    intro i; rw [← hs']; rfl
  have hdir : intendedDir s'.lastMove s'.xVal s'.yVal = 3 := by
    rw [← hs']
    show intendedDir 0 x 500 = 3
    unfold intendedDir
    rw [if_neg (by omega), if_neg (by omega), if_neg (by omega), if_pos ⟨hx, by decide⟩]
  obtain ⟨h3, h40, hone⟩ := inv_init mem rng0
  have hone' : ∀ i, i < s'.segCount → OneBit (segGrid s' i) := by
    intro i hi; rw [hgrid]; exact hone i (by rw [hseg] at hi; exact hi)
  have lit : ∀ k, k < 3 → LitAt (segGrid s' k) (k + 2) 3 := by
    intro k hk
    rw [hgrid]
    refine ⟨by omega, by decide, fun c hc => ?_⟩
    interval_cases k <;> interval_cases c <;> simp [segGrid, boardAt, initState]
  obtain ⟨_, mc, _, mo, _⟩ := moved_fields s'
  have rows : ∀ (i k : Nat), k < 8 → boardAt (move s') i k = boardAt (moved s') i k := by
    intro i k _; rw [move_eq, boardAt_checkFood]
  have head : LitAt (segGrid (moved s') 0) 3 3 := by
    refine litAt_congr (fun k hk => ?_) (litAt_moveRight s' 0 2 3 (lit 0 (by decide)))
    show boardAt (moved s') 0 k = _
    rw [boardAt_moved s' 0 k hk, if_pos rfl, hdir]; rfl
  have seg2 : LitAt (segGrid (moved s') 2) 3 3 := by
    refine litAt_congr (fun k hk => ?_) (lit 1 (by decide))
    show boardAt (moved s') 2 k = _
    rw [boardAt_moved s' 2 k hk, if_neg (by decide), if_pos (by rw [hseg]; decide)]; rfl
  have hl := lose_hit_of_same (moved s') 3 3
    (by rw [mc]; exact moved_oneBit s' (by omega) hone') head
    (by rw [mc, hseg]; decide) 2 (by decide) (by rw [mc, hseg]; decide)
    (sameGrid_of_litAt seg2 head rfl rfl)
  rw [ht]
  refine ⟨?_, ?_, ?_, ?_, ?_⟩
  · rw [move_eq, checkFood_lastMove, (moved_fields s').2.2.2.2, hdir]
  · exact litAt_congr (fun k hk => rows 0 k hk) head
  · exact litAt_congr (fun k hk => rows 2 k hk) seg2
  · have := hl.1
    unfold emitted at this ⊢
    rw [← move_eq, mo, hout] at this
    exact this
  · rw [move_eq]; exact hl.2

/-- C20 with the stick at `xVal = 1000`: `lose()` runs on the first tick. -/
theorem first_tick_right_loses_witness :
    Event.loseShown ∈ emitted (initState (fun _ => 0) (fun _ => 0))
      (tick 1000 500 (fun _ => 0) (initState (fun _ => 0) (fun _ => 0))) :=
  (first_tick_right_loses (fun _ => 0) (fun _ => 0) (fun _ => 0) 1000 (by decide)).2.2.2.1

/-! ## Row indices of the tick -/

section rowcheck

theorem foldlM_some_inv {α : Type} (P : State → Prop) (f : State → α → State)
    (g : State → α → Option State) (l : List α)
    (h : ∀ t, ∀ x ∈ l, P t → g t x = some (f t x) ∧ P (f t x)) (s : State) (hs : P s) :
    l.foldlM g s = some (l.foldl f s) := by
  induction l generalizing s with
  | nil => rfl
  | cons a l ih =>
    obtain ⟨e, hp⟩ := h s a (List.mem_cons_self a l) hs
    rw [List.foldlM_cons, e]
    exact ih (fun t x hx => h t x (List.mem_cons_of_mem a hx)) (f s a) hp

theorem boardAtRow_ok (rows : Nat) (s : State) (seg : Nat) (x : Int) (h : seg < rows) :
    boardAtRow rows s seg x = some (boardAt s seg x) := by
  unfold boardAtRow; rw [if_pos h]

theorem setBoardRow_ok (rows : Nat) (s : State) (seg : Nat) (x : Int) (v : Nat)
    (h : seg < rows) : setBoardRow rows s seg x v = some (setBoard s seg x v) := by
  unfold setBoardRow; rw [if_pos h]

theorem moveUpRow_eq (rows seg : Nat) (s : State) (h : seg < rows) :
    moveUpRow rows seg s = some (moveUp seg s) := by
  unfold moveUpRow moveUp
  apply foldlM_some
  intro t x _
  rw [boardAtRow_ok rows t seg x h]
  show (if boardAt t seg x = 128 then _ else _) = _
  split
  · rw [setBoardRow_ok rows t seg x 1 h]
  · rw [setBoardRow_ok rows t seg x _ h]

theorem moveDownRow_eq (rows seg : Nat) (s : State) (h : seg < rows) :
    moveDownRow rows seg s = some (moveDown seg s) := by
  unfold moveDownRow moveDown
  apply foldlM_some
  intro t x _
  rw [boardAtRow_ok rows t seg x h]
  show (if boardAt t seg x = 1 then _ else _) = _
  split
  · rw [setBoardRow_ok rows t seg x 128 h]
  · rw [setBoardRow_ok rows t seg x _ h]

theorem moveLeftRow_eq (rows seg : Nat) (s : State) (h : seg < rows) :
    moveLeftRow rows seg s = some (moveLeft seg s) := by
  have e : cols.foldlM
      (fun (t : State) (x : Nat) => do
        let v ← boardAtRow rows t seg ((x : Int) + 1)
        setBoardRow rows t seg x v)
      { s with lastMove := 2 } =
      some (cols.foldl
        (fun (t : State) (x : Nat) => setBoard t seg x (boardAt t seg ((x : Int) + 1)))
        { s with lastMove := 2 }) := by
    apply foldlM_some
    intro t x _
    rw [boardAtRow_ok rows t seg _ h]
    exact setBoardRow_ok rows t seg x _ h
  simp only [moveLeftRow, moveLeft]
  rw [boardAtRow_ok rows _ seg 0 h, e]
  exact setBoardRow_ok rows _ seg 7 _ h

theorem moveRightRow_eq (rows seg : Nat) (s : State) (h : seg < rows) :
    moveRightRow rows seg s = some (moveRight seg s) := by
  have e : colsDown.foldlM
      (fun (t : State) (x : Nat) => do
        let v ← boardAtRow rows t seg ((x : Int) - 1)
        setBoardRow rows t seg x v)
      { s with lastMove := 3 } =
      some (colsDown.foldl
        (fun (t : State) (x : Nat) => setBoard t seg x (boardAt t seg ((x : Int) - 1)))
        { s with lastMove := 3 }) := by
    apply foldlM_some
    intro t x _
    rw [boardAtRow_ok rows t seg _ h]
    exact setBoardRow_ok rows t seg x _ h
  simp only [moveRightRow, moveRight]
  rw [boardAtRow_ok rows _ seg 7 h, e]
  exact setBoardRow_ok rows _ seg 0 _ h

theorem copySegRow_eq (rows seg : Nat) (s : State) (h : seg < rows) :
    copySegRow rows seg s = some (copySeg seg s) := by
  unfold copySegRow copySeg
  apply foldlM_some
  intro t i _
  rw [boardAtRow_ok rows t (seg - 1) i (by omega)]
  exact setBoardRow_ok rows t seg i _ h

theorem steerRow_eq (rows : Nat) (s : State) (h : 0 < rows) :
    steerRow rows s = some (steer s) := by
  unfold steerRow steer
  split
  · exact moveUpRow_eq rows 0 s h
  · split
    · exact moveDownRow_eq rows 0 s h
    · split
      · exact moveLeftRow_eq rows 0 s h
      · split
        · exact moveRightRow_eq rows 0 s h
        · generalize s.lastMove = d
          rcases d with _ | _ | _ | _ | d
          · exact moveUpRow_eq rows 0 s h
          · exact moveDownRow_eq rows 0 s h
          · exact moveLeftRow_eq rows 0 s h
          · exact moveRightRow_eq rows 0 s h
          · rfl

theorem rerollRow_eq (rows : Nat) (s : State) (h : s.segCount ≤ rows) :
    rerollRow rows s = some (reroll s) := by
  unfold rerollRow reroll
  refine foldlM_some_inv (fun (t : State) => t.segCount = s.segCount) _ _ _ ?_ s rfl
  intro t x _ ht
  constructor
  · apply foldlM_some
    intro u seg hseg
    have hlt : seg < rows := by
      have := List.mem_range.mp hseg
      omega
    rw [boardAtRow_ok rows u seg x hlt]
    show (if boardAt u seg x = u.food x then _ else _) = _
    split <;> rfl
  · refine foldl_inv (fun (u : State) => u.segCount = s.segCount) _ ?_ _ _ ht
    intro u seg hu
    split
    · exact hu
    · exact hu

theorem eatRow_eq (rows : Nat) (s : State) (h : s.segCount ≤ rows) :
    eatRow rows s = some (eat s) := by
  unfold eatRow eat
  rw [rerollRow_eq rows (placeFood (announce (clearFood s))) h]
  rfl

theorem foodCheckRow_eq (rows x : Nat) (s : State) (h0 : 0 < rows)
    (h : s.segCount ≤ rows) : foodCheckRow rows x s = some (foodCheck x s) := by
  unfold foodCheckRow foodCheck foodHit
  rw [boardAtRow_ok rows s 0 x h0]
  show (if boardAt s 0 x = s.food x ∧ boardAt s 0 x ≠ 0 then _ else _) = _
  split
  · exact eatRow_eq rows s h
  · rfl

theorem loseLoopRow_eq (rows x fuel seg : Nat) (s : State) (h3 : 3 ≤ rows)
    (h : s.segCount ≤ rows) :
    loseLoopRow rows x fuel seg s = some (loseLoop x fuel seg s) := by
  induction fuel generalizing seg s with
  | zero => rfl
  | succ fuel ih =>
    rw [loseLoopRow, loseLoop]
    split
    · rename_i hlt
      rw [boardAtRow_ok rows s 0 x (by omega), boardAtRow_ok rows s seg x (by omega)]
      show loseLoopRow rows x fuel (seg + 1) (if bodyHit s x seg then lose s else s) = _
      apply ih
      split
      · exact h3
      · exact h
    · rfl

theorem checkColRow_eq (rows x : Nat) (s : State) (h3 : 3 ≤ rows) (h : s.segCount < rows) :
    checkColRow rows x s = some (checkCol x s) := by
  unfold checkColRow checkCol selfCheck
  rw [foodCheckRow_eq rows x s (by omega) (by omega)]
  show (loseLoopRow rows x _ 1 (foodCheck x s) >>= fun s2 => some (winCheck s2)) = _
  rw [loseLoopRow_eq rows x _ 1 _ h3 (by rw [foodCheck_segCount]; split <;> omega)]
  rfl

theorem checkFoodRow_eq (rows : Nat) (s : State) (h40 : kWinCount ≤ rows)
    (h : s.segCount < rows) : checkFoodRow rows s = some (checkFood s) := by
  unfold checkFoodRow checkFood
  refine foldlM_some_inv (fun (t : State) => t.segCount < rows) _ _ _ ?_ s h
  intro t x _ ht
  have h3 : 3 ≤ rows := by unfold kWinCount at h40; omega
  exact ⟨checkColRow_eq rows x t h3 ht, lt_of_lt_of_le (checkCol_lt x t) h40⟩

theorem copySeg_segCount (seg : Nat) (s : State) :
    (copySeg (seg + 1) s).segCount = s.segCount := by
  rw [copySeg_eq]

theorem steer_segCount (s : State) : (steer s).segCount = s.segCount := by
  rw [steer_eq_advance]; exact (advance_fields _ 0 s).2.1

theorem moveLoopRow_eq (rows n : Nat) (s : State) (h40 : kWinCount ≤ rows) (hn : n < rows)
    (hs : s.segCount < rows) : moveLoopRow rows n s = some (moveLoop n s) := by
  induction n generalizing s with
  | zero =>
    rw [moveLoopRow, moveLoop, steerRow_eq rows s hn]
    exact checkFoodRow_eq rows (steer s) h40 (by rw [steer_segCount]; exact hs)
  | succ n ih =>
    rw [moveLoopRow, moveLoop, copySegRow_eq rows (n + 1) s hn]
    exact ih (copySeg (n + 1) s) (by omega) (by rw [copySeg_segCount]; exact hs)

/-- With at least `kWinCount` rows and more rows than `segCount`, no row
check of the tick fails. -/
theorem moveRow_eq (rows : Nat) (s : State) (h40 : kWinCount ≤ rows)
    (hs : s.segCount < rows) : moveRow rows s = some (move s) :=
  moveLoopRow_eq rows s.segCount s h40 hs hs

theorem copySegRow_none (rows seg : Nat) (s : State) (h : rows ≤ seg) :
    copySegRow rows seg s = none := by
  have e : (boardAtRow rows s (seg - 1) ((0 : Nat) : Int) >>=
      fun v => setBoardRow rows s seg ((0 : Nat) : Int) v) = none := by
    cases boardAtRow rows s (seg - 1) ((0 : Nat) : Int) with
    | none => rfl
    | some v =>
      show setBoardRow rows s seg ((0 : Nat) : Int) v = none
      unfold setBoardRow
      rw [if_neg (by omega)]
  unfold copySegRow cols
  rw [List.foldlM_cons]
  show ((boardAtRow rows s (seg - 1) ((0 : Nat) : Int) >>=
      fun v => setBoardRow rows s seg ((0 : Nat) : Int) v) >>= _) = none
  rw [e]
  rfl

/-- The tick writes row `segCount`: with no more rows than that, a row check
fails. -/
theorem moveRow_none (rows : Nat) (s : State) (h1 : 1 ≤ s.segCount)
    (h : rows ≤ s.segCount) : moveRow rows s = none := by
  unfold moveRow
  obtain ⟨n, hn⟩ : ∃ n, s.segCount = n + 1 := ⟨s.segCount - 1, by omega⟩
  rw [hn, moveLoopRow, copySegRow_none rows (n + 1) s (by omega)]
  rfl

end rowcheck

/-! ## The food after the food branch -/

section regenerated

theorem drawn_place (r : Nat → Nat) (u : State) (h : Drawn r u) :
    Drawn r (placeFood (clearFood u)) := by
  obtain ⟨k, _, hr⟩ := h
  refine ⟨k + 1, ?_, fun n => ?_⟩
  · have hl := placeFood_litAt u
    rw [hr 1, hr 0] at hl
    exact litAt_cast hl (by congr 2; omega) (by congr 2; omega)
  · show u.rng (n + 1 + 1) = _
    rw [hr]; congr 1; omega

theorem reroll_drawn (r : Nat → Nat) (u : State) (h : Drawn r u) : Drawn r (reroll u) := by
  unfold reroll
  refine foldl_inv (Drawn r) _ ?_ _ _ h
  intro t x ht
  refine foldl_inv (Drawn r) _ ?_ _ _ ht
  intro v seg hv
  split
  · exact drawn_place r v hv
  · exact hv

/-- The food branch leaves the food on the cell of the last pair of draws
it made, the first of the pair giving the byte and the second the column,
and the stream advanced past the print and all pairs. -/
theorem eat_drawn (s : State) : Drawn s.rng (eat s) := by
  have h0 : Drawn s.rng (placeFood (announce (clearFood s))) := by
    refine ⟨0, placeFood_litAt (announce s), fun n => ?_⟩
    show s.rng (n + 1 + 1 + 1) = _
    congr 1
  have k := reroll_drawn s.rng _ h0
  unfold eat
  generalize reroll (placeFood (announce (clearFood s))) = v at k ⊢
  exact k

end regenerated

/-- C6. Food consumption, for a head grid with its one bit at `(c, r)`, a
food grid with its one bit at `(fc, fr)` and `segCount` below the win
threshold, as it is whenever `checkFood()` is entered.  The food branch runs
once if the two cells are the same and not at all otherwise (counted by its
serial print).  In the first case `checkFood()` is the self-collision loop
and win check of column `c` applied to the result of the food branch, which
has raised `segCount` by exactly 1 and has cleared and regenerated the food:
the food grid after `checkFood()` is one-bit again, lit exactly at the cell
of the last pair of draws made (after `k` re-rolls the draws `2k + 1`, for
the byte, and `2k + 2`, for the column, counting the printed draw as 0), and
the stream has advanced past them; the count ends as `segCount + 1` unless
`lose()` or `win()` reset it to 3.  In the second case the food branch is
skipped: food and random stream are unchanged and `segCount` stays unless
`lose()` resets it. -/
theorem food_consumption (s : State) (c r fc fr : Nat)
    (hh : LitAt (segGrid s 0) c r) (hf : LitAt s.food fc fr)
    (hn : s.segCount < kWinCount) :
    (emitted s (checkFood s)).countP isSerial = (if c = fc ∧ r = fr then 1 else 0) ∧
    (c = fc ∧ r = fr →
      checkFood s = winCheck (selfCheck c (eat s)) ∧
      (eat s).segCount = s.segCount + 1 ∧
      (checkFood s).food = (eat s).food ∧
      OneBit (checkFood s).food ∧
      (∃ k, LitAt (checkFood s).food (s.rng (2 * k + 2) % 8) (s.rng (2 * k + 1) % 8) ∧
        ∀ n, (checkFood s).rng n = s.rng (n + (2 * k + 3))) ∧
      ((checkFood s).segCount = s.segCount + 1 ∨ (checkFood s).segCount = 3)) ∧
    (¬ (c = fc ∧ r = fr) →
      checkFood s = winCheck (selfCheck c s) ∧
      (checkFood s).food = s.food ∧ (checkFood s).rng = s.rng ∧
      ((checkFood s).segCount = s.segCount ∨ (checkFood s).segCount = 3)) := by
  have e0 : checkFood s = checkCol c s :=
    checkFood_single s c hh.1 (head_zero_of_litAt s c r hh) hn
  have hit := foodHit_iff s c r fc fr hh hf
  by_cases hsame : c = fc ∧ r = fr
  · have e1 : foodCheck c s = eat s := by
      unfold foodCheck; rw [if_pos (hit.mpr hsame)]
    have e2 : checkFood s = winCheck (selfCheck c (eat s)) := by
      rw [e0]; unfold checkCol; rw [e1]
    obtain ⟨_, t2, t3, _, _, _, t7, _, l, t9, t10⟩ := tail_spec c (eat s)
    rw [← e2] at t2 t3 t7 t9
    obtain ⟨k, dl, dr⟩ := eat_drawn s
    rw [← t2] at dl
    rw [← t3] at dr
    refine ⟨?_, fun _ => ⟨e2, eat_segCount s, t2,
      ⟨_, dl.1, _, dl.2.1, dl⟩, ⟨k, dl, dr⟩, ?_⟩, fun h => absurd hsame h⟩
    · rw [if_pos hsame, emitted_of_append s _ ([Event.serial (s.rng 0)] ++ l)
        (by rw [t9, eat_out, List.append_assoc])]
      have z : l.countP isSerial = 0 := List.countP_eq_zero.mpr (by simpa using t10)
      rw [List.countP_append, z]
      rfl
    · rw [eat_segCount] at t7; exact t7
  · have e1 : foodCheck c s = s := by
      unfold foodCheck; rw [if_neg (fun h => hsame (hit.mp h))]
    have e2 : checkFood s = winCheck (selfCheck c s) := by
      rw [e0]; unfold checkCol; rw [e1]
    obtain ⟨_, t2, t3, _, _, _, t7, _, l, t9, t10⟩ := tail_spec c s
    rw [← e2] at t2 t3 t7 t9
    refine ⟨?_, fun h => absurd h hsame, fun _ => ⟨e2, t2, t3, t7⟩⟩
    rw [if_neg hsame, emitted_of_append s _ l t9]
    exact List.countP_eq_zero.mpr (by simpa using t10)

set_option maxRecDepth 100000 in
/-- C6 on a state whose head has just reached the food in column 6, row 3,
with the generator returning 1, 1, 1 and then 5: the food branch runs
exactly once, the count goes to 4, and the old food at column 6 is gone: the
new food is the one cell of the later draws, column 5 and byte 32. -/
theorem food_consumption_witness :
    (emitted rerollState (checkFood rerollState)).countP isSerial = 1 ∧
    OneBit (checkFood rerollState).food ∧
    (checkFood rerollState).segCount = 4 ∧
    LitAt (checkFood rerollState).food 5 5 :=
  ⟨(food_consumption rerollState 6 3 6 3 (by decide) (by decide) (by decide)).1,
   ((food_consumption rerollState 6 3 6 3 (by decide) (by decide) (by decide)).2.1
      ⟨rfl, rfl⟩).2.2.2.1,
   by decide, by decide⟩

/-- C10. Segment count bounds: `segCount` starts at 3; in every reachable
state at a tick boundary `3 ≤ segCount ≤ 39`; one tick leaves it unchanged,
adds exactly 1, or resets it to 3.  Hence every row index that `move()` and
`checkFood()` use in a tick from such a state is within the 41 rows of
`board`: with every access `board[seg][x]` of the tick checked against 41
rows no check fails and the result is that of the unchecked tick, and the
same holds with only 40 rows, so no index is above 39.  The index `segCount`
itself is used: from any state with `segCount ≥ 1`, a check against
`segCount` rows or fewer fails. -/
theorem segCount_bounds (s : State) (h : Reachable s) :
    (∀ (mem : Int → Nat) (rng : Nat → Nat), (initState mem rng).segCount = 3) ∧
    3 ≤ s.segCount ∧ s.segCount ≤ 39 ∧
    (∀ (x y : Int) (rng : Nat → Nat),
      (tick x y rng s).segCount = s.segCount ∨
      (tick x y rng s).segCount = s.segCount + 1 ∨
      (tick x y rng s).segCount = 3) ∧
    (∀ (x y : Int) (rng : Nat → Nat),
      moveRow 41 { s with xVal := x, yVal := y, rng := rng } = some (tick x y rng s)) ∧
    (∀ (x y : Int) (rng : Nat → Nat),
      moveRow 40 { s with xVal := x, yVal := y, rng := rng } = some (tick x y rng s)) ∧
    (∀ (u : State) (rows : Nat), 1 ≤ u.segCount → rows ≤ u.segCount →
      moveRow rows u = none) := by
  have hinv := inv_reachable s h
  have h40 : s.segCount < 40 := hinv.2.1
  refine ⟨fun _ _ => rfl, hinv.1, by omega, fun x y rng => (inv_tick s hinv x y rng).2,
    fun x y rng => ?_, fun x y rng => ?_, fun u rows h1 h2 => moveRow_none rows u h1 h2⟩
  · exact moveRow_eq 41 { s with xVal := x, yVal := y, rng := rng } (by decide)
      (by show s.segCount < 41; omega)
  · exact moveRow_eq 40 { s with xVal := x, yVal := y, rng := rng } (by decide)
      (by show s.segCount < 40; omega)

/-- C10 after the fourth tick of the game played Left, the tick in which the
first food is eaten: the count is within bounds and the fifth tick passes
every row check against 40 rows; and on a state with `segCount = 41` the
check against the 41 rows fails. -/
theorem segCount_bounds_witness :
    3 ≤ (leftRun 4).segCount ∧ (leftRun 4).segCount ≤ 39 ∧
    moveRow 40 { leftRun 4 with xVal := 0, yVal := 500, rng := fun _ => 3 } =
      some (tick 0 500 (fun _ => 3) (leftRun 4)) ∧
    moveRow 41 overlongState = none := by
  have h := segCount_bounds (leftRun 4)
    (Reachable.step _ _ _ _ (Reachable.step _ _ _ _ (Reachable.step _ _ _ _
      (Reachable.step _ _ _ _ (Reachable.init _ _)))))
  exact ⟨h.2.1, h.2.2.1, h.2.2.2.2.2.1 0 500 (fun _ => 3),
    h.2.2.2.2.2.2 overlongState 41 (by decide) (by decide)⟩

end Snake
